import Mathlib

/-!
Verification of the document-structure reconstruction pipeline of
`ai-micro-api-doc` against its natural-language specification.

The Python source is shallowly embedded: Python dicts holding bounding-box
coordinates become records of `Option ℚ` fields (a missing key is `none`, and
an empty bbox dict is the all-`none` record); floats become `ℚ` (the claims
under verification only use order and affine arithmetic on coordinates, which
`ℚ` models exactly); `dict.get(k, d)` becomes `Option.getD`; fallible code
returns `Option`.  Each definition names the source function it embeds.
-/

namespace Spec2Proof

/-- A fully-resolved rectangle, as produced by the converters:
the `{"x1": _, "y1": _, "x2": _, "y2": _}` dicts the pipeline emits. -/
structure RBBox where
  x1 : ℚ
  y1 : ℚ
  x2 : ℚ
  y2 : ℚ
deriving DecidableEq, Repr

/-- A Python bbox dict as consumed by the converters: every key is optional.
A missing `"bbox"` key (the `element.get("bbox", {})` default) is the
all-`none` record; `if not bbox` (dict falsiness) is `isEmptyDict`. -/
structure BBoxDict where
  x1 : Option ℚ := none
  y1 : Option ℚ := none
  x2 : Option ℚ := none
  y2 : Option ℚ := none
  x : Option ℚ := none
  y : Option ℚ := none
  width : Option ℚ := none
  height : Option ℚ := none
deriving DecidableEq, Repr

/-- Python dict falsiness for a bbox dict (`if not parent_bbox: continue`):
true when the dict has none of the bbox keys. -/
def BBoxDict.isEmptyDict (b : BBoxDict) : Bool :=
  b.x1.isNone && b.y1.isNone && b.x2.isNone && b.y2.isNone &&
  b.x.isNone && b.y.isNone && b.width.isNone && b.height.isNone

/-- An element dict of a page layout (`page_layout["elements"][i]`), with the
keys the hierarchy converter reads.  `table_info` / `list_info` are never
consulted by the claims under verification and are omitted. -/
structure DictElem where
  type : Option String := none
  elementId : Option Int := none
  bbox : BBoxDict := {}
  text : Option String := none
deriving DecidableEq, Repr

/-! ## HierarchyConverter._convert_to_tree_element
(src/app/services/processor/hierarchy_converter.py lines 518-591) -/

/-- The tree element produced by `HierarchyConverter._convert_to_tree_element`
(hierarchy_converter.py lines 556-591).  The `children` list is attached
afterwards by `_build_tree_element` and is modelled by the forest builder
below; `table_info` enrichment is omitted (no claim consults it). -/
structure TreeElement where
  id : String
  type : String
  x : ℚ
  y : ℚ
  width : ℚ
  height : ℚ
  bbox : RBBox
  parentId : Option String
  text : Option String
deriving DecidableEq, Repr

/-- `HierarchyConverter._convert_to_tree_element` (hierarchy_converter.py
lines 518-591): resolves the bbox dict with the source's exact fallback
chain (`x2` defaults to `x1 + width` with `width` defaulting to 100, `y2` to
`y1 + height` with `height` defaulting to 20), flips y for every element
type except `"figure"`, and never swaps inverted coordinates. -/
def convertToTreeElement (element : DictElem) (simpleId : String)
    (parentId : Option String) (pageHeight : ℚ) : TreeElement :=
  let bbox := element.bbox
  let elementType := element.type.getD "unknown"
  let x1 := bbox.x1.getD (bbox.x.getD 0)
  let y1Input := bbox.y1.getD (bbox.y.getD 0)
  let x2 := bbox.x2.getD (x1 + bbox.width.getD 100)
  let y2Input := bbox.y2.getD (y1Input + bbox.height.getD 20)
  let y1Image := if elementType = "figure" then y1Input else pageHeight - y2Input
  let y2Image := if elementType = "figure" then y2Input else pageHeight - y1Input
  { id := simpleId
    type := element.type.getD "text"
    x := x1
    y := y1Image
    width := x2 - x1
    height := y2Image - y1Image
    bbox := ⟨x1, y1Image, x2, y2Image⟩
    parentId := parentId
    text := element.text }

/-- `HierarchyConverter._is_contained` (hierarchy_converter.py lines 450-473):
containment of the child bbox in the parent bbox expanded by a margin of 5,
with this call site's key-fallback chain (`x2` defaults to `x1 + width` with
`width` defaulting to 0). -/
def isContained (parentBbox childBbox : BBoxDict) : Bool :=
  let pX1 := parentBbox.x1.getD (parentBbox.x.getD 0)
  let pY1 := parentBbox.y1.getD (parentBbox.y.getD 0)
  let pX2 := parentBbox.x2.getD (pX1 + parentBbox.width.getD 0)
  let pY2 := parentBbox.y2.getD (pY1 + parentBbox.height.getD 0)
  let cX1 := childBbox.x1.getD (childBbox.x.getD 0)
  let cY1 := childBbox.y1.getD (childBbox.y.getD 0)
  let cX2 := childBbox.x2.getD (cX1 + childBbox.width.getD 0)
  let cY2 := childBbox.y2.getD (cY1 + childBbox.height.getD 0)
  let margin : ℚ := 5
  decide (cX1 ≥ pX1 - margin) && decide (cY1 ≥ pY1 - margin) &&
  decide (cX2 ≤ pX2 + margin) && decide (cY2 ≤ pY2 + margin)

/-! ## HierarchicalExtractor spatial nesting depth
(src/app/services/processor/hierarchical_extractor.py lines 427-517) -/

/-- An element dict as consumed by `HierarchicalExtractor`: only
`element_id` and `bbox` are read by the spatial-parent walk. -/
structure SpatialElem where
  elementId : Option Int := none
  bbox : Option BBoxDict := none
deriving DecidableEq, Repr

/-- `HierarchicalExtractor._is_bbox_contained` (hierarchical_extractor.py
lines 457-467): no-margin containment with every key defaulting to 0. -/
def isBboxContained (innerBbox outerBbox : BBoxDict) : Bool :=
  decide (innerBbox.x1.getD 0 ≥ outerBbox.x1.getD 0) &&
  decide (innerBbox.y1.getD 0 ≥ outerBbox.y1.getD 0) &&
  decide (innerBbox.x2.getD 0 ≤ outerBbox.x2.getD 0) &&
  decide (innerBbox.y2.getD 0 ≤ outerBbox.y2.getD 0)

/-- `HierarchicalExtractor._calculate_bbox_area` (hierarchical_extractor.py
lines 469-476). -/
def calculateBboxArea (bbox : BBoxDict) : ℚ :=
  let width := bbox.x2.getD 0 - bbox.x1.getD 0
  let height := bbox.y2.getD 0 - bbox.y1.getD 0
  max 0 (width * height)

/-- Python `min(xs, key=f)`: the first element with minimal key. -/
def minByKey (f : SpatialElem → ℚ) : SpatialElem → List SpatialElem → SpatialElem
  | best, [] => best
  | best, e :: es => if f e < f best then minByKey f e es else minByKey f best es

/-- `HierarchicalExtractor._find_spatial_parent` (hierarchical_extractor.py
lines 427-455): among the other elements whose bbox contains the child's
bbox, return the one of least area (first wins on ties), if any. -/
def findSpatialParent (childElement : SpatialElem)
    (allElements : List SpatialElem) : Option SpatialElem :=
  match childElement.bbox with
  | none => none
  | some childBbox =>
    let potentialParents := allElements.filter (fun element =>
      element.elementId != childElement.elementId &&
      (match element.bbox with
       | none => false
       | some elementBbox => isBboxContained childBbox elementBbox))
    match potentialParents with
    | [] => none
    | p :: ps => some (minByKey (fun x => calculateBboxArea ((x.bbox).getD {})) p ps)

/-- The `while True` parent-chasing loop of
`HierarchicalExtractor._calculate_spatial_level` (hierarchical_extractor.py
lines 499-513): follow spatial parents, incrementing `level`, and break as
soon as no parent is found or `level > 10`. -/
def spatialLevelLoop (allElements : List SpatialElem) :
    SpatialElem → Nat → Nat := fun currentElement level =>
  match findSpatialParent currentElement allElements with
  | none => level
  | some parent =>
    let level1 := level + 1
    if level1 > 10 then level1
    else spatialLevelLoop allElements parent level1
termination_by _currentElement level => 11 - level
decreasing_by
  simp only [not_lt] at *
  omega

/-- `HierarchicalExtractor._calculate_spatial_level` (hierarchical_extractor.py
lines 496-517): spatial nesting depth starting from level 0. -/
def calculateSpatialLevel (element : SpatialElem)
    (allElements : List SpatialElem) : Nat :=
  spatialLevelLoop allElements element 0

theorem spatialLevelLoop_le (allElements : List SpatialElem) :
    ∀ level currentElement, level ≤ 10 →
      spatialLevelLoop allElements currentElement level ≤ 11 := by
  have key : ∀ fuel level currentElement, 11 - level ≤ fuel → level ≤ 10 →
      spatialLevelLoop allElements currentElement level ≤ 11 := by
    intro fuel
    induction fuel with
    | zero => intro level c hf hl; omega
    | succ n ih =>
      intro level c hf hl
      rw [spatialLevelLoop]
      cases findSpatialParent c allElements with
      | none => simpa using by omega
      | some parent =>
        simp only
        by_cases h : level + 1 > 10
        · simp [h]; omega
        · simp only [h, if_false]
          exact ih (level + 1) parent (by omega) (by omega)
  intro level c hl
  exact key (11 - level) level c (by omega) hl

/-! ## LayoutExtractor bbox extraction and element processing
(src/app/services/processor/layout_extractor.py lines 225-327,
src/app/services/processor/utils.py lines 167-195) -/

/-- A bbox object with `l`/`t`/`r`/`b` attributes (Docling style). -/
structure LTRB where
  l : ℚ
  t : ℚ
  r : ℚ
  b : ℚ
deriving DecidableEq, Repr

/-- A bbox object with `x`/`y`/`w`/`h` attributes. -/
structure XYWH where
  x : ℚ
  y : ℚ
  w : ℚ
  h : ℚ
deriving DecidableEq, Repr

/-- A Docling item as probed by `LayoutExtractor` / `utils`: each optional
field records the outcome of one `hasattr` probe of the source.
`bboxLTRB`/`bboxXYWH` are the two recognised shapes of a direct `bbox`
attribute, `provBbox` is `element.prov[0].bbox`, and `provAttrBbox` is the
`item.prov.bbox` attribute probed by `utils.extract_bbox` (in practice `prov`
is a list, so that probe fails).  `onPage` is the outcome of
`is_item_on_page` for the page being extracted, and `label`/`text` feed
`get_element_type` / text extraction. -/
structure DocItem where
  bboxLTRB : Option LTRB := none
  bboxXYWH : Option XYWH := none
  provBbox : Option LTRB := none
  provAttrBbox : Option LTRB := none
  onPage : Bool := true
  label : Option String := none
  text : Option String := none
deriving DecidableEq, Repr

/-- The DocLayNet normalization table of `utils.get_element_type`
(utils.py lines 69-95). -/
def doclaynetsMapping : List (String × String) :=
  [("title", "title"), ("heading", "section-header"),
   ("section_header", "section-header"), ("section-header", "section-header"),
   ("text", "text"), ("paragraph", "text"), ("list", "list-item"),
   ("list_item", "list-item"), ("list-item", "list-item"), ("table", "table"),
   ("table_cell", "table-cell"), ("table-cell", "table-cell"),
   ("figure", "picture"), ("image", "picture"), ("picture", "picture"),
   ("caption", "caption"), ("formula", "formula"), ("equation", "formula"),
   ("footer", "page-footer"), ("header", "page-header"),
   ("page_header", "page-header"), ("page-header", "page-header"),
   ("page_footer", "page-footer"), ("page-footer", "page-footer"),
   ("footnote", "footnote")]

/-- `utils.get_element_type` (utils.py lines 12-104) restricted to the
`label` attribute path; a falsy (empty) or missing label takes the
class-name probing path, which this model collapses to its `"text"`
default (no claim distinguishes the class-name patterns). -/
def getElementType (element : DocItem) : String :=
  match element.label with
  | some lbl =>
    if lbl ≠ "" then (doclaynetsMapping.lookup lbl.toLower).getD "text"
    else "text"
  | none => "text"

/-- `utils.extract_bbox` (utils.py lines 167-195): direct `bbox` attribute in
either shape, else the (attribute-style) `prov.bbox`, else the zero-size
fallback bbox `{0,0,0,0}` — this helper never drops an item. -/
def extractBbox (item : DocItem) : RBBox :=
  match item.bboxLTRB, item.bboxXYWH with
  | some lb, _ => ⟨lb.l, lb.t, lb.r, lb.b⟩
  | none, some xb => ⟨xb.x, xb.y, xb.x + xb.w, xb.y + xb.h⟩
  | none, none =>
    match item.provAttrBbox with
    | some lb => ⟨lb.l, lb.t, lb.r, lb.b⟩
    | none => ⟨0, 0, 0, 0⟩

/-- `LayoutExtractor.extract_bbox_from_element` (layout_extractor.py lines
273-327).  Method 1 (direct `bbox` attribute) passes `t`,`b` through as
`y1`,`y2` with no flip and no swap; method 2 (`prov[0].bbox`) flips by
`page_height` and swaps when the flip leaves `y1 > y2`; method 3 falls back
to `utils.extract_bbox` but rejects its result when `x1 = x2`, returning
`none` (the caller then drops the element). -/
def extractBboxFromElement (element : DocItem) (pageHeight : ℚ) : Option RBBox :=
  match element.bboxLTRB with
  | some lb => some ⟨lb.l, lb.t, lb.r, lb.b⟩
  | none =>
    match element.provBbox with
    | some lb =>
      let y1 := pageHeight - lb.t
      let y2 := pageHeight - lb.b
      if y1 > y2 then some ⟨lb.l, y2, lb.r, y1⟩ else some ⟨lb.l, y1, lb.r, y2⟩
    | none =>
      let bboxData := extractBbox element
      if bboxData.x1 ≠ bboxData.x2 then some bboxData else none

/-- One entry of `page_layout["elements"]` as built by
`LayoutExtractor.process_docling_element` (`table_data` enrichment omitted —
no claim consults it). -/
structure LayoutElement where
  type : String
  elementId : Int
  bbox : RBBox
  text : String
deriving DecidableEq, Repr

/-- `LayoutExtractor.process_docling_element` (layout_extractor.py lines
225-271): returns `none` — dropping the element — when no bbox can be
extracted; otherwise builds the element dict.  Text extraction is modelled
by the item's `text` attribute (the source's encoding-repair internals do
not affect any claim); the garbled-text check only logs and is omitted. -/
def processDoclingElement (element : DocItem) (elementId : Int)
    (pageHeight : ℚ) : Option LayoutElement :=
  match extractBboxFromElement element pageHeight with
  | none => none
  | some bboxData =>
    let elementType := getElementType element
    let textContent := (element.text).getD ""
    some ⟨elementType, elementId,  bboxData,
      if textContent = "" then elementType ++ " element" else textContent⟩

/-- The item loop of `LayoutExtractor.extract_page_layout` (layout_extractor.py
lines 169-182): per on-page item, keep `process_docling_element`'s result
only when it is not `None`, incrementing `element_id` only for kept
elements. -/
def extractPageItemsLoop (pageHeight : ℚ) :
    List DocItem → Int → List LayoutElement
  | [], _ => []
  | item :: rest, elementId =>
    if item.onPage then
      match processDoclingElement item elementId pageHeight with
      | some elementData => elementData :: extractPageItemsLoop pageHeight rest (elementId + 1)
      | none => extractPageItemsLoop pageHeight rest elementId
    else extractPageItemsLoop pageHeight rest elementId

/-- The item loop started at `element_id = 0`. -/
def extractPageItems (items : List DocItem) (pageHeight : ℚ) : List LayoutElement :=
  extractPageItemsLoop pageHeight items 0

/-- An element dict carrying a fully-specified PDF bbox, the shape the
hierarchy converter receives for detected elements. -/
def mkElem (t : String) (x1 y1 x2 y2 : ℚ) : DictElem :=
  ⟨some t, none, ⟨some x1, some y1, some x2, some y2, none, none, none, none⟩, none⟩

/-- C3: for every element whose type is not "figure",
`HierarchyConverter._convert_to_tree_element` emits image-space
`y1 = page_height - pdf_y2` and `y2 = page_height - pdf_y1` with x unchanged
(scale 1); "figure" elements pass y1 and y2 through unchanged; and the title
element with PDF bbox (50,780,300,800) on a page of height 842 gets
image-space bbox (50, 42, 300, 62). -/
theorem claim_C3_coordinate_flip :
    (∀ (t : String) (x1 y1 x2 y2 h : ℚ) (sid : String) (pid : Option String),
      t ≠ "figure" →
      (convertToTreeElement (mkElem t x1 y1 x2 y2) sid pid h).bbox =
        ⟨x1, h - y2, x2, h - y1⟩) ∧
    (∀ (x1 y1 x2 y2 h : ℚ) (sid : String) (pid : Option String),
      (convertToTreeElement (mkElem "figure" x1 y1 x2 y2) sid pid h).bbox =
        ⟨x1, y1, x2, y2⟩) ∧
    (convertToTreeElement (mkElem "title" 50 780 300 800) "ID-1" none 842).bbox =
      ⟨50, 42, 300, 62⟩ := by
  refine ⟨?_, ?_, ?_⟩
  · intro t x1 y1 x2 y2 h sid pid ht
    simp [convertToTreeElement, mkElem, ht]
  · intro x1 y1 x2 y2 h sid pid
    simp [convertToTreeElement, mkElem]
  · simp only [convertToTreeElement, mkElem, Option.getD_some]
    norm_num
    decide

/-- Witness for C3: the flip theorem applied at the spec's concrete title
element. -/
theorem claim_C3_coordinate_flip_witness :
    ("title" : String) ≠ "figure" ∧
    (convertToTreeElement (mkElem "title" 50 780 300 800) "ID-1" none 842).bbox =
      ⟨50, 842 - 800, 300, 842 - 780⟩ :=
  ⟨by decide, claim_C3_coordinate_flip.1 "title" 50 780 300 800 842 "ID-1" none
    (by decide)⟩

/-- C10: `HierarchicalExtractor._calculate_spatial_level` is a total function
(the embedding is accepted by Lean's termination checker, mirroring the
source's `level > 10` break) and its result is at most 11 — hence between 0
and 11 inclusive — for every element and every element list, including lists
whose bboxes mutually contain each other. -/
theorem claim_C10_spatial_level_bounded :
    ∀ (element : SpatialElem) (allElements : List SpatialElem),
      calculateSpatialLevel element allElements ≤ 11 := by
  intro element allElements
  exact spatialLevelLoop_le allElements 0 element (by omega)

theorem extractPageItemsLoop_length (h : ℚ) : ∀ (items : List DocItem) (eid : Int),
    (extractPageItemsLoop h items eid).length =
      (items.filter
        (fun it => it.onPage && (extractBboxFromElement it h).isSome)).length := by
  intro items
  induction items with
  | nil => intro eid; rfl
  | cons it rest ih =>
    intro eid
    by_cases hp : it.onPage
    · cases hx : extractBboxFromElement it h with
      | none =>
        simp [extractPageItemsLoop, processDoclingElement, hp, hx, ih]
      | some bb =>
        simp [extractPageItemsLoop, processDoclingElement, hp, hx, ih]
    · simp [extractPageItemsLoop, hp, ih]

/-- C4 counterexample: an element whose direct `bbox` attribute carries
`l=300, t=10, r=50, b=5` comes out of
`LayoutExtractor.extract_bbox_from_element` with `x1=300 > x2=50` and
`y1=10 > y2=5`: the direct-bbox path swaps nothing, so normalization does
not guarantee `x1 ≤ x2` and `y1 ≤ y2`. -/
theorem claim_C4_counterexample :
    extractBboxFromElement
        ⟨some ⟨300, 10, 50, 5⟩, none, none, none, true, none, none⟩ 842 =
      some ⟨300, 10, 50, 5⟩ ∧
    ¬ ((300 : ℚ) ≤ 50) ∧ ¬ ((10 : ℚ) ≤ 5) := by
  refine ⟨rfl, by norm_num, by norm_num⟩

/-- C4 amended: only the `prov[0].bbox` flip path of
`extract_bbox_from_element` swaps inverted y coordinates — its output always
satisfies `y1 ≤ y2`, with x passed through unswapped — while the direct-bbox
path passes all four coordinates through unchanged. -/
theorem claim_C4_swap_only_on_prov_path :
    (∀ (e : DocItem) (h : ℚ) (pb : LTRB) (res : RBBox),
      e.bboxLTRB = none → e.provBbox = some pb →
      extractBboxFromElement e h = some res →
      res.y1 ≤ res.y2 ∧ res.x1 = pb.l ∧ res.x2 = pb.r) ∧
    (∀ (e : DocItem) (h : ℚ) (lb : LTRB), e.bboxLTRB = some lb →
      extractBboxFromElement e h = some ⟨lb.l, lb.t, lb.r, lb.b⟩) := by
  constructor
  · intro e h pb res h1 h2 hres
    rw [extractBboxFromElement, h1, h2] at hres
    simp only at hres
    by_cases hgt : h - pb.t > h - pb.b
    · rw [if_pos hgt] at hres
      cases hres
      constructor
      · simp; linarith
      · exact ⟨rfl, rfl⟩
    · rw [if_neg hgt] at hres
      cases hres
      constructor
      · simp; linarith
      · exact ⟨rfl, rfl⟩
  · intro e h lb h1
    rw [extractBboxFromElement, h1]

/-- Witness for the amended C4: the prov path applied to `l=50, t=5, r=300,
b=10` at page height 842 — the flip inverts, the swap restores `y1 ≤ y2`. -/
theorem claim_C4_swap_only_on_prov_path_witness :
    (DocItem.bboxLTRB ⟨none, none, some ⟨50, 5, 300, 10⟩, none, true, none, none⟩ = none) ∧
    (DocItem.provBbox ⟨none, none, some ⟨50, 5, 300, 10⟩, none, true, none, none⟩ =
      some ⟨50, 5, 300, 10⟩) ∧
    (extractBboxFromElement ⟨none, none, some ⟨50, 5, 300, 10⟩, none, true, none, none⟩ 842 =
      some ⟨50, 832, 300, 837⟩) ∧
    ((832 : ℚ) ≤ 837 ∧ (50 : ℚ) = 50 ∧ (300 : ℚ) = 300) := by
  have hev : extractBboxFromElement
      ⟨none, none, some ⟨50, 5, 300, 10⟩, none, true, none, none⟩ 842 =
      some ⟨50, 832, 300, 837⟩ := by
    rw [extractBboxFromElement]
    norm_num
  exact ⟨rfl, rfl, hev,
    claim_C4_swap_only_on_prov_path.1 _ 842 ⟨50, 5, 300, 10⟩ ⟨50, 832, 300, 837⟩
      rfl rfl hev⟩

/-- C9 counterexample: an item from which no bbox can be extracted is not
kept with a zero-size bbox — `process_docling_element` returns `None`
(`utils.extract_bbox`'s zero-size fallback is rejected by the `x1 != x2`
check) and the page loop drops the element, so it does not appear in the
downstream element list. -/
theorem claim_C9_counterexample :
    processDoclingElement ⟨none, none, none, none, true, some "text", some "hello"⟩ 0 842 =
      none ∧
    extractPageItems [⟨none, none, none, none, true, some "text", some "hello"⟩] 842 = [] ∧
    extractBbox ⟨none, none, none, none, true, some "text", some "hello"⟩ = ⟨0, 0, 0, 0⟩ := by
  refine ⟨?_, ?_, rfl⟩
  · rw [processDoclingElement, extractBboxFromElement]
    norm_num [extractBbox]
  · rw [extractPageItems, extractPageItemsLoop]
    simp only [if_pos]
    rw [processDoclingElement, extractBboxFromElement]
    norm_num [extractBbox, extractPageItemsLoop]

/-- C9 amended: an element whose bbox cannot be extracted is dropped, not
kept: `process_docling_element` returns `None` for it, the page loop keeps
exactly the on-page items with an extractable bbox, and only the standalone
`utils.extract_bbox` helper substitutes a zero-size bbox — which the
`x1 != x2` check of `extract_bbox_from_element` then rejects. -/
theorem claim_C9_unextractable_bbox_dropped :
    (∀ (item : DocItem) (eid : Int) (h : ℚ),
      extractBboxFromElement item h = none →
      processDoclingElement item eid h = none) ∧
    (∀ (items : List DocItem) (h : ℚ),
      (extractPageItems items h).length =
        (items.filter
          (fun it => it.onPage && (extractBboxFromElement it h).isSome)).length) ∧
    (∀ (item : DocItem), item.bboxLTRB = none → item.bboxXYWH = none →
      item.provAttrBbox = none →
      extractBbox item = ⟨0, 0, 0, 0⟩ ∧
      (item.provBbox = none → ∀ h, extractBboxFromElement item h = none)) := by
  refine ⟨?_, ?_, ?_⟩
  · intro item eid h hx
    rw [processDoclingElement, hx]
  · intro items h
    exact extractPageItemsLoop_length h items 0
  · intro item h1 h2 h3
    have hz : extractBbox item = ⟨0, 0, 0, 0⟩ := by
      rw [extractBbox, h1, h2, h3]
    refine ⟨hz, ?_⟩
    intro h4 h
    rw [extractBboxFromElement, h1, h4]
    simp [hz]

/-- Witness for the amended C9: the no-bbox item is dropped from the page. -/
theorem claim_C9_unextractable_bbox_dropped_witness :
    (extractBboxFromElement ⟨none, none, none, none, true, none, none⟩ 842 = none) ∧
    (processDoclingElement ⟨none, none, none, none, true, none, none⟩ 0 842 = none) := by
  have hx : extractBboxFromElement ⟨none, none, none, none, true, none, none⟩ 842 = none :=
    ((claim_C9_unextractable_bbox_dropped.2.2 ⟨none, none, none, none, true, none, none⟩
      rfl rfl rfl).2 rfl) 842
  exact ⟨hx, claim_C9_unextractable_bbox_dropped.1 _ 0 842 hx⟩

/-! ## HierarchyConverter global element IDs
(src/app/services/processor/hierarchy_converter.py lines 49-51 and 240-252) -/

/-- The id-assignment aspect of the element loop of
`HierarchyConverter._build_hierarchical_structure` (hierarchy_converter.py
lines 240-252): per element the document-wide counter is incremented and
the element receives the simple id `"ID-" ++ counter`; returns the assigned
ids in order together with the final counter value. -/
def assignIdsLoop {α : Type} : Nat → List α → List String × Nat
  | counter, [] => ([], counter)
  | counter, _ :: rest =>
    let counter1 := counter + 1
    let simpleId := "ID-" ++ Nat.repr counter1
    let (restIds, finalCounter) := assignIdsLoop counter1 rest
    (simpleId :: restIds, finalCounter)

/-- The per-page loop of `HierarchyConverter.convert_to_frontend_hierarchy`
(hierarchy_converter.py lines 57-100), restricted to its id-assignment
aspect: each page's elements are numbered with the running document-wide
counter. -/
def documentIdsLoop {α : Type} : Nat → List (List α) → List (List String)
  | _, [] => []
  | counter, page :: pages =>
    let (ids, counter1) := assignIdsLoop counter page
    ids :: documentIdsLoop counter1 pages

/-- `HierarchyConverter.convert_to_frontend_hierarchy` resets
`global_element_counter` to 0 once at the start of the document
(hierarchy_converter.py line 51) and then numbers every page with the same
running counter. -/
def convertDocumentIds {α : Type} (pages : List (List α)) : List (List String) :=
  documentIdsLoop 0 pages

/-- Decimal digit list of a natural number, most significant first: the
mathematical characterization of `Nat.toDigitsCore`. -/
def decimalRepr (n : Nat) : List Char :=
  if n < 10 then [Nat.digitChar n]
  else decimalRepr (n / 10) ++ [Nat.digitChar (n % 10)]
decreasing_by exact Nat.div_lt_self (by omega) (by omega)

theorem decimalRepr_lt {n : Nat} (h : n < 10) :
    decimalRepr n = [Nat.digitChar n] := by
  rw [decimalRepr, if_pos h]

theorem decimalRepr_ge {n : Nat} (h : ¬ n < 10) :
    decimalRepr n = decimalRepr (n / 10) ++ [Nat.digitChar (n % 10)] := by
  rw [decimalRepr, if_neg h]

theorem toDigitsCore_eq_decimalRepr :
    ∀ (n fuel : Nat) (acc : List Char), n < fuel →
      Nat.toDigitsCore 10 fuel n acc = decimalRepr n ++ acc := by
  intro n
  induction n using Nat.strong_induction_on with
  | _ n ih =>
    intro fuel acc hfuel
    match fuel with
    | 0 => omega
    | f + 1 =>
      rw [Nat.toDigitsCore]
      by_cases hdiv : n / 10 = 0
      · have hn : n < 10 := by omega
        rw [decimalRepr_lt hn]
        simp [hdiv, Nat.mod_eq_of_lt hn]
      · have hn : ¬ n < 10 := by
          intro hlt
          exact hdiv (Nat.div_eq_of_lt hlt)
        have hlt : n / 10 < n := Nat.div_lt_self (by omega) (by omega)
        rw [if_neg hdiv, ih (n / 10) hlt f _ (by omega), decimalRepr_ge hn]
        simp

theorem decimalRepr_ne_nil (n : Nat) : decimalRepr n ≠ [] := by
  rw [decimalRepr]
  split <;> simp

theorem digitChar_inj_lt (a b : Nat) (ha : a < 10) (hb : b < 10)
    (h : Nat.digitChar a = Nat.digitChar b) : a = b := by
  have key : ∀ x y : Fin 10, Nat.digitChar x.val = Nat.digitChar y.val → x = y := by
    decide
  have := key ⟨a, ha⟩ ⟨b, hb⟩ h
  exact congrArg Fin.val this

theorem decimalRepr_inj : ∀ m n : Nat, decimalRepr m = decimalRepr n → m = n := by
  intro m
  induction m using Nat.strong_induction_on with
  | _ m ih =>
    intro n h
    by_cases hm : m < 10 <;> by_cases hn : n < 10
    · rw [decimalRepr_lt hm, decimalRepr_lt hn] at h
      exact digitChar_inj_lt m n hm hn (List.singleton_injective h)
    · rw [decimalRepr_lt hm, decimalRepr_ge hn] at h
      have hlen := congrArg List.length h
      simp only [List.length_singleton, List.length_append] at hlen
      have h0 : decimalRepr (n / 10) = [] := by
        apply List.eq_nil_of_length_eq_zero
        omega
      exact absurd h0 (decimalRepr_ne_nil (n / 10))
    · rw [decimalRepr_ge hm, decimalRepr_lt hn] at h
      have hlen := congrArg List.length h
      simp only [List.length_singleton, List.length_append] at hlen
      have h0 : decimalRepr (m / 10) = [] := by
        apply List.eq_nil_of_length_eq_zero
        omega
      exact absurd h0 (decimalRepr_ne_nil (m / 10))
    · rw [decimalRepr_ge hm, decimalRepr_ge hn] at h
      obtain ⟨h1, h2⟩ := List.append_inj' h (by simp)
      have hd : m % 10 = n % 10 :=
        digitChar_inj_lt _ _ (Nat.mod_lt _ (by omega)) (Nat.mod_lt _ (by omega))
          (List.singleton_injective h2)
      have hq : m / 10 = n / 10 :=
        ih (m / 10) (Nat.div_lt_self (by omega) (by omega)) (n / 10) h1
      omega

theorem nat_repr_injective : Function.Injective Nat.repr := by
  intro m n h
  have hm : Nat.repr m = (decimalRepr m).asString := by
    rw [Nat.repr, Nat.toDigits, toDigitsCore_eq_decimalRepr m (m + 1) [] (by omega)]
    simp
  have hn : Nat.repr n = (decimalRepr n).asString := by
    rw [Nat.repr, Nat.toDigits, toDigitsCore_eq_decimalRepr n (n + 1) [] (by omega)]
    simp
  rw [hm, hn] at h
  have : decimalRepr m = decimalRepr n := by
    have := congrArg String.data h
    simpa [List.asString] using this
  exact decimalRepr_inj m n this

/-- The simple-id format `f"ID-{counter}"` of hierarchy_converter.py line 248. -/
def mkSimpleId (n : Nat) : String := "ID-" ++ Nat.repr n

theorem mkSimpleId_injective : Function.Injective mkSimpleId := by
  intro m n h
  apply nat_repr_injective
  have := congrArg String.data h
  simp only [mkSimpleId] at this
  apply String.ext
  have key : ∀ s t : String, (s ++ t).data = s.data ++ t.data := by
    intro s t; rfl
  rw [key, key] at this
  exact List.append_cancel_left this

theorem assignIdsLoop_eq {α : Type} :
    ∀ (elems : List α) (c : Nat),
      assignIdsLoop c elems =
        ((List.range' (c + 1) elems.length).map mkSimpleId, c + elems.length) := by
  intro elems
  induction elems with
  | nil => intro c; simp [assignIdsLoop]
  | cons e rest ih =>
    intro c
    rw [assignIdsLoop, ih (c + 1)]
    simp [List.range'_succ, mkSimpleId]
    omega

theorem documentIdsLoop_flatten {α : Type} :
    ∀ (pages : List (List α)) (c : Nat),
      (documentIdsLoop c pages).flatten =
        (List.range' (c + 1) (pages.map List.length).sum).map mkSimpleId := by
  intro pages
  induction pages with
  | nil => intro c; simp [documentIdsLoop]
  | cons page rest ih =>
    intro c
    rw [documentIdsLoop, assignIdsLoop_eq]
    simp only [List.flatten_cons, ih (c + page.length), List.map_cons, List.sum_cons]
    rw [← List.map_append]
    congr 1
    have harg : c + page.length + 1 = c + 1 + page.length := by omega
    rw [harg, List.range'_append_1]
    congr 1
    omega

/-- C7: within one document-processing invocation, the counter is reset once
at the start and the assigned node ids across all pages are exactly
`ID-1, ID-2, …, ID-N` (N the document's total element count) in emission
order — consecutive, strictly increasing, never reused — regardless of page
count. -/
theorem claim_C7_global_id_sequence (α : Type) (pages : List (List α)) :
    (convertDocumentIds pages).flatten =
      (List.range' 1 (pages.map List.length).sum).map mkSimpleId ∧
    ((convertDocumentIds pages).flatten).Nodup := by
  have h : (convertDocumentIds pages).flatten =
      (List.range' 1 (pages.map List.length).sum).map mkSimpleId := by
    rw [convertDocumentIds, documentIdsLoop_flatten]
  refine ⟨h, ?_⟩
  rw [h]
  exact (List.nodup_range' _ _).map mkSimpleId_injective

/-! ## PDFPreprocessor extraction fallback orchestrator
(src/app/services/processor/pdf_preprocessor.py lines 63-610) -/

/-- A Docling 2.65.0+ `DoclingDocument` as probed by the preprocessor:
its `texts` property and `body.children`. -/
structure DoclingDoc where
  texts : List String
  bodyChildren : List String
deriving DecidableEq, Repr

/-- The `has_content` probe of pdf_preprocessor.py lines 157-158 and 497-498:
`(hasattr(document, 'texts') and list(document.texts)) or
 (hasattr(document, 'body') and document.body.children)`. -/
def DoclingDoc.hasContent (d : DoclingDoc) : Bool :=
  !d.texts.isEmpty || !d.bodyChildren.isEmpty

/-- A document produced by a conversion: either a `DoclingDocument`
(content-checked by the strategies) or any other format — the legacy
`Document` / `MockDocument` shapes, carrying `main_text` — which the
strategies accept without a content check. -/
inductive PDoc
  | docling (d : DoclingDoc)
  | legacy (mainText : List String)
deriving DecidableEq, Repr

/-- The number of text elements of a converted document (the quantity the
spec's "zero text elements" clause speaks about): for a `DoclingDocument`
the count logged at pdf_preprocessor.py line 160, for other formats the
length of `main_text`. -/
def PDoc.textElementCount : PDoc → Nat
  | .docling d => if d.texts.isEmpty then d.bodyChildren.length else d.texts.length
  | .legacy mainText => mainText.length

/-- The outcome of one `converter.convert(pdf_path)` call: the call raised,
returned a non-`SUCCESS` status, or returned `SUCCESS` with a document. -/
inductive ConvOutcome
  | raised (reason : String)
  | failed (status : String)
  | converted (doc : PDoc)
deriving DecidableEq, Repr

/-- The outcome of one subprocess run (`qpdf` / `gs`): raised, or exited
with a return code. -/
inductive RunOutcome
  | raised (reason : String)
  | exit (code : Int)
deriving DecidableEq, Repr

/-- `PDFPreprocessor._try_easyocr_direct` (pdf_preprocessor.py lines
120-178): any exception (including `ImportError`) yields `(False, None)`;
a non-`SUCCESS` status yields `(False, None)`; a converted
`DoclingDocument` is accepted only if it has content, while a document of
any other format is accepted unconditionally. -/
def tryEasyocrDirect (conv : ConvOutcome) : Bool × Option PDoc :=
  match conv with
  | .raised _ => (false, none)
  | .failed _ => (false, none)
  | .converted doc =>
    match doc with
    | .docling d => if d.hasContent then (true, some doc) else (false, none)
    | .legacy _ => (true, some doc)

/-- `PDFPreprocessor._try_docling_conversion` (pdf_preprocessor.py lines
465-535): a minimal-settings conversion whose `SUCCESS` result is
content-checked only for `DoclingDocument`s; if the minimal conversion
*raises* (not if it merely returns a failure status), the default
converter is tried and its `SUCCESS` result is accepted with no content
check at all (lines 518-527). -/
def tryDoclingConversion (minimal fallbackDefault : ConvOutcome) :
    Bool × Option PDoc :=
  match minimal with
  | .converted doc =>
    match doc with
    | .docling d => if d.hasContent then (true, some doc) else (false, none)
    | .legacy _ => (true, some doc)
  | .failed _ => (false, none)
  | .raised _ =>
    match fallbackDefault with
    | .converted doc => (true, some doc)
    | .failed _ => (false, none)
    | .raised _ => (false, none)

/-- `PDFPreprocessor._try_qpdf_preprocessing` (pdf_preprocessor.py lines
180-221): a raised exception or a nonzero `qpdf` return code yields
`(False, None)`; otherwise the preprocessed file goes through
`_try_docling_conversion`.  (Temp-file and output-copy side effects are
not modelled; an exception from them is covered by `RunOutcome.raised`.) -/
def tryQpdfPreprocessing (qpdfRun : RunOutcome)
    (minimal fallbackDefault : ConvOutcome) : Bool × Option PDoc :=
  match qpdfRun with
  | .raised _ => (false, none)
  | .exit code =>
    if code ≠ 0 then (false, none)
    else tryDoclingConversion minimal fallbackDefault

/-- One Ghostscript approach of `_try_ghostscript_preprocessing`: the `gs`
run outcome and the Docling conversion outcomes for the produced file. -/
structure GsApproach where
  run : RunOutcome
  minimal : ConvOutcome
  fallbackDefault : ConvOutcome
deriving DecidableEq, Repr

/-- `PDFPreprocessor._try_ghostscript_preprocessing` (pdf_preprocessor.py
lines 223-266): approaches are tried in order; a raised approach or a
failed `gs` run or a failed conversion falls through to the next; the
first approach whose conversion succeeds is returned; `(False, None)`
when all approaches are exhausted. -/
def tryGhostscriptPreprocessing : List GsApproach → Bool × Option PDoc
  | [] => (false, none)
  | a :: rest =>
    match a.run with
    | .raised _ => tryGhostscriptPreprocessing rest
    | .exit code =>
      if code ≠ 0 then tryGhostscriptPreprocessing rest
      else
        let conv := tryDoclingConversion a.minimal a.fallbackDefault
        if conv.1 then conv else tryGhostscriptPreprocessing rest

/-- `PDFPreprocessor._try_docling_conversion_force_ocr` (pdf_preprocessor.py
lines 537-610): the EasyOCR conversion's `SUCCESS` document is returned
with no content check; on any failure or exception the Tesseract
conversion is tried, again with no content check; exceptions yield
`(False, None)`. -/
def tryDoclingConversionForceOcr (easyConv tessConv : ConvOutcome) :
    Bool × Option PDoc :=
  match easyConv with
  | .converted doc => (true, some doc)
  | _ =>
    match tessConv with
    | .converted doc => (true, some doc)
    | .failed _ => (false, none)
    | .raised _ => (false, none)

/-- The outcome of `CustomOCRProcessor.process_pdf_with_custom_ocr`: raised,
or a `(success, ocr_data)` pair — `dataSuccess` is `ocr_data.get('success')`
and `pageTexts` the per-page `text_content` values. -/
inductive OcrOutcome
  | raised (reason : String)
  | result (runSuccess : Bool) (dataSuccess : Bool) (pageTexts : List String)
deriving DecidableEq, Repr

/-- `PDFPreprocessor._create_mock_document_from_ocr` (pdf_preprocessor.py
lines 421-463): a `MockDocument` whose `main_text` holds one element per
page with truthy `text_content`. -/
def mockDocumentFromOcr (pageTexts : List String) : PDoc :=
  .legacy (pageTexts.filter (fun t => t ≠ ""))

/-- `PDFPreprocessor._try_image_ocr_processing` (pdf_preprocessor.py lines
392-419): when the custom OCR run and its `ocr_data['success']` flag both
hold, the mock document is returned as a success — with no element-count
check; otherwise the forced-OCR Docling conversion is tried; a raised
custom OCR run yields `(False, None)`. -/
def tryImageOcrProcessing (ocr : OcrOutcome)
    (easyConv tessConv : ConvOutcome) : Bool × Option PDoc :=
  match ocr with
  | .raised _ => (false, none)
  | .result runSuccess dataSuccess pageTexts =>
    if runSuccess && dataSuccess then (true, some (mockDocumentFromOcr pageTexts))
    else tryDoclingConversionForceOcr easyConv tessConv

/-- The outcomes of every external call `process_with_fallback` can make,
one field per call site, fixing one run of the orchestrator. -/
structure FallbackEnv where
  easyocrConv : ConvOutcome
  qpdfRun : RunOutcome
  qpdfMinimal : ConvOutcome
  qpdfDefault : ConvOutcome
  gs1 : GsApproach
  gs2 : GsApproach
  gs3 : GsApproach
  ocr : OcrOutcome
  forceEasyConv : ConvOutcome
  forceTessConv : ConvOutcome
deriving DecidableEq, Repr

/-- `PDFPreprocessor.process_with_fallback` (pdf_preprocessor.py lines
63-118): the four strategies in their fixed source order, stopping at the
first whose helper reports success and returning the triple
`(success, document, method_used)` — exactly the value the source
returns; on exhaustion `(False, None, "all_failed")`. -/
def processWithFallback (env : FallbackEnv) : Bool × Option PDoc × String :=
  let r0 := tryEasyocrDirect env.easyocrConv
  if r0.1 then (true, r0.2, "easyocr_direct")
  else
    let r1 := tryQpdfPreprocessing env.qpdfRun env.qpdfMinimal env.qpdfDefault
    if r1.1 then (true, r1.2, "qpdf_docling")
    else
      let r2 := tryGhostscriptPreprocessing [env.gs1, env.gs2, env.gs3]
      if r2.1 then (true, r2.2, "ghostscript_docling")
      else
        let r3 := tryImageOcrProcessing env.ocr env.forceEasyConv env.forceTessConv
        if r3.1 then (true, r3.2, "image_ocr_docling")
        else (false, none, "all_failed")

/-- The spec's ExtractionAttempt record: strategy name, success flag and an
optional failure reason. -/
structure ExtractionAttempt where
  strategyName : String
  success : Bool
  failureReason : Option String
deriving DecidableEq, Repr

/-- Failure description of an easyocr-direct attempt, from the branch taken
(the strings stand for the log messages of pdf_preprocessor.py lines
164-177). -/
def easyocrFailureReason (conv : ConvOutcome) : String :=
  match conv with
  | .raised m => m
  | .failed s => "conversion failed: " ++ s
  | .converted _ => "document with no text content"

/-- Failure description of a `_try_docling_conversion` call, from the branch
taken. -/
def doclingConversionFailureReason (minimal fallbackDefault : ConvOutcome) :
    String :=
  match minimal with
  | .converted _ => "document has no text content"
  | .failed s => "conversion failed with status " ++ s
  | .raised _ =>
    match fallbackDefault with
    | .converted _ => ""
    | .failed s => "default conversion failed with status " ++ s
    | .raised m => m

/-- Failure description of a qpdf attempt, from the branch taken. -/
def qpdfFailureReason (qpdfRun : RunOutcome)
    (minimal fallbackDefault : ConvOutcome) : String :=
  match qpdfRun with
  | .raised m => m
  | .exit code =>
    if code ≠ 0 then "qpdf preprocessing failed"
    else doclingConversionFailureReason minimal fallbackDefault

/-- Modelled from the spec: the ExtractionAttempt accumulation of §4.5 — the
source records attempts only in its logs, and `process_with_fallback`'s
return value (the triple above) carries no attempt list; this function
computes, from the same per-call outcomes, the full attempt history of one
orchestrator run: one entry per strategy invoked, in source order, ending
with the first success when there is one. -/
def attemptHistory (env : FallbackEnv) : List ExtractionAttempt :=
  let r0 := tryEasyocrDirect env.easyocrConv
  let a0 : ExtractionAttempt := ⟨"easyocr_direct", r0.1,
    if r0.1 then none else some (easyocrFailureReason env.easyocrConv)⟩
  if r0.1 then [a0]
  else
    let r1 := tryQpdfPreprocessing env.qpdfRun env.qpdfMinimal env.qpdfDefault
    let a1 : ExtractionAttempt := ⟨"qpdf_docling", r1.1,
      if r1.1 then none
      else some (qpdfFailureReason env.qpdfRun env.qpdfMinimal env.qpdfDefault)⟩
    if r1.1 then [a0, a1]
    else
      let r2 := tryGhostscriptPreprocessing [env.gs1, env.gs2, env.gs3]
      let a2 : ExtractionAttempt := ⟨"ghostscript_docling", r2.1,
        if r2.1 then none else some "All Ghostscript approaches failed"⟩
      if r2.1 then [a0, a1, a2]
      else
        let r3 := tryImageOcrProcessing env.ocr env.forceEasyConv env.forceTessConv
        let a3 : ExtractionAttempt := ⟨"image_ocr_docling", r3.1,
          if r3.1 then none else some "Image OCR processing failed"⟩
        [a0, a1, a2, a3]

/-- The fixed strategy order of `process_with_fallback`. -/
def strategyOrder : List String :=
  ["easyocr_direct", "qpdf_docling", "ghostscript_docling", "image_ocr_docling"]

/-- A Ghostscript approach whose `gs` run exits nonzero (so it is skipped). -/
def gsFailApproach : GsApproach := ⟨.exit 1, .failed "x", .failed "x"⟩

/-- A run in which the EasyOCR strategy "succeeds" but converts to a
non-Docling document with zero text elements, and every later strategy
would fail. -/
def emptyLegacyEnv : FallbackEnv :=
  ⟨.converted (.legacy []), .exit 1, .failed "x", .failed "x",
   gsFailApproach, gsFailApproach, gsFailApproach,
   .raised "ocr error", .failed "f", .failed "f"⟩

/-- A run in which EasyOCR fails (exception) and the qpdf strategy succeeds
with a one-element document. -/
def qpdfWinsEnv : FallbackEnv :=
  ⟨.raised "easyocr unavailable", .exit 0,
   .converted (.docling ⟨["t1"], []⟩), .failed "not reached",
   gsFailApproach, gsFailApproach, gsFailApproach,
   .raised "ocr error", .failed "f", .failed "f"⟩

/-- An all-strategies-fail run whose EasyOCR failure reason is "reason A". -/
def allFailEnvA : FallbackEnv :=
  ⟨.raised "reason A", .exit 1, .failed "x", .failed "x",
   gsFailApproach, gsFailApproach, gsFailApproach,
   .raised "ocr error", .failed "f", .failed "f"⟩

/-- The same all-fail run but with EasyOCR failure reason "reason B". -/
def allFailEnvB : FallbackEnv :=
  ⟨.raised "reason B", .exit 1, .failed "x", .failed "x",
   gsFailApproach, gsFailApproach, gsFailApproach,
   .raised "ocr error", .failed "f", .failed "f"⟩

/-- C1 counterexample: a strategy whose conversion succeeds with a document
of a non-Docling format carrying zero text elements is *not* treated as a
failure — `process_with_fallback` returns it as the `easyocr_direct`
success and invokes no later strategy, refuting the claim's universal
"success with zero text elements is treated as a failure" clause. -/
theorem claim_C1_counterexample :
    processWithFallback emptyLegacyEnv =
      (true, some (.legacy []), "easyocr_direct") ∧
    PDoc.textElementCount (.legacy []) = 0 ∧
    attemptHistory emptyLegacyEnv = [⟨"easyocr_direct", true, none⟩] :=
  ⟨rfl, rfl, rfl⟩

/-- C1 amended: the orchestrator tries the strategies in the fixed order
easyocr_direct, qpdf_docling, ghostscript_docling, image_ocr_docling (the
attempt names are always a prefix of that order); the first helper
reporting success ends the run with that strategy's name as `method_used`
and no later strategy is invoked; and a conversion that "succeeds" with a
`DoclingDocument` holding zero text elements and zero body children is
treated as a failure by the easyocr-direct and minimal-Docling paths (for
other document formats no content check is made — see the
counterexample). -/
theorem claim_C1_fallback_order :
    (∀ env : FallbackEnv,
      (attemptHistory env).map (fun a => a.strategyName) =
        strategyOrder.take (attemptHistory env).length) ∧
    (∀ env : FallbackEnv,
      (tryEasyocrDirect env.easyocrConv).1 = true →
      processWithFallback env =
        (true, (tryEasyocrDirect env.easyocrConv).2, "easyocr_direct") ∧
      (attemptHistory env).length = 1) ∧
    (∀ env : FallbackEnv,
      (tryEasyocrDirect env.easyocrConv).1 = false →
      (tryQpdfPreprocessing env.qpdfRun env.qpdfMinimal env.qpdfDefault).1 = true →
      processWithFallback env =
        (true, (tryQpdfPreprocessing env.qpdfRun env.qpdfMinimal env.qpdfDefault).2,
          "qpdf_docling") ∧
      (attemptHistory env).length = 2) ∧
    (∀ env : FallbackEnv,
      (tryEasyocrDirect env.easyocrConv).1 = false →
      (tryQpdfPreprocessing env.qpdfRun env.qpdfMinimal env.qpdfDefault).1 = false →
      (tryGhostscriptPreprocessing [env.gs1, env.gs2, env.gs3]).1 = true →
      processWithFallback env =
        (true, (tryGhostscriptPreprocessing [env.gs1, env.gs2, env.gs3]).2,
          "ghostscript_docling") ∧
      (attemptHistory env).length = 3) ∧
    (∀ env : FallbackEnv,
      (tryEasyocrDirect env.easyocrConv).1 = false →
      (tryQpdfPreprocessing env.qpdfRun env.qpdfMinimal env.qpdfDefault).1 = false →
      (tryGhostscriptPreprocessing [env.gs1, env.gs2, env.gs3]).1 = false →
      (tryImageOcrProcessing env.ocr env.forceEasyConv env.forceTessConv).1 = true →
      processWithFallback env =
        (true, (tryImageOcrProcessing env.ocr env.forceEasyConv env.forceTessConv).2,
          "image_ocr_docling") ∧
      (attemptHistory env).length = 4) ∧
    (∀ d : DoclingDoc, d.hasContent = false →
      tryEasyocrDirect (.converted (.docling d)) = (false, none) ∧
      ∀ fb : ConvOutcome,
        tryDoclingConversion (.converted (.docling d)) fb = (false, none)) := by
  refine ⟨?_, ?_, ?_, ?_, ?_, ?_⟩
  · intro env
    by_cases h0 : (tryEasyocrDirect env.easyocrConv).1
    · simp [attemptHistory, strategyOrder, h0]
    · by_cases h1 :
        (tryQpdfPreprocessing env.qpdfRun env.qpdfMinimal env.qpdfDefault).1
      · simp [attemptHistory, strategyOrder, h0, h1]
      · by_cases h2 : (tryGhostscriptPreprocessing [env.gs1, env.gs2, env.gs3]).1
        · simp [attemptHistory, strategyOrder, h0, h1, h2]
        · by_cases h3 :
            (tryImageOcrProcessing env.ocr env.forceEasyConv env.forceTessConv).1
          · simp [attemptHistory, strategyOrder, h0, h1, h2, h3]
          · simp [attemptHistory, strategyOrder, h0, h1, h2, h3]
  · intro env h0
    constructor
    · simp [processWithFallback, h0]
    · simp [attemptHistory, h0]
  · intro env h0 h1
    constructor
    · simp [processWithFallback, h0, h1]
    · simp [attemptHistory, h0, h1]
  · intro env h0 h1 h2
    constructor
    · simp [processWithFallback, h0, h1, h2]
    · simp [attemptHistory, h0, h1, h2]
  · intro env h0 h1 h2 h3
    constructor
    · simp [processWithFallback, h0, h1, h2, h3]
    · simp [attemptHistory, h0, h1, h2, h3]
  · intro d hd
    constructor
    · simp [tryEasyocrDirect, hd]
    · intro fb
      simp [tryDoclingConversion, hd]

/-- Witness for the amended C1: the spec's own scenario — first strategy
fails, second succeeds — yields `method_used = "qpdf_docling"`, two
attempts, and no later strategy invoked. -/
theorem claim_C1_fallback_order_witness :
    ((tryEasyocrDirect qpdfWinsEnv.easyocrConv).1 = false) ∧
    ((tryQpdfPreprocessing qpdfWinsEnv.qpdfRun qpdfWinsEnv.qpdfMinimal
        qpdfWinsEnv.qpdfDefault).1 = true) ∧
    (processWithFallback qpdfWinsEnv =
      (true, (tryQpdfPreprocessing qpdfWinsEnv.qpdfRun qpdfWinsEnv.qpdfMinimal
        qpdfWinsEnv.qpdfDefault).2, "qpdf_docling") ∧
      (attemptHistory qpdfWinsEnv).length = 2) :=
  ⟨rfl, rfl, claim_C1_fallback_order.2.2.1 qpdfWinsEnv rfl rfl⟩

/-- C2 counterexample: two all-fail runs with different attempt histories
(different EasyOCR failure reasons) produce the *same* return value
`(False, None, "all_failed")` — so the value `process_with_fallback`
returns cannot carry the full attempt history; the history exists only in
the logs. -/
theorem claim_C2_counterexample :
    processWithFallback allFailEnvA = processWithFallback allFailEnvB ∧
    processWithFallback allFailEnvA = (false, none, "all_failed") ∧
    attemptHistory allFailEnvA ≠ attemptHistory allFailEnvB := by
  refine ⟨rfl, rfl, ?_⟩
  decide

/-- C2 amended: when every strategy fails the orchestrator returns the
well-formed terminal triple `(False, None, "all_failed")` without raising
(the embedding of every branch is total because each helper catches its
exceptions), and the full four-entry attempt history is produced — but
only into the logs, not into the returned value. -/
theorem claim_C2_all_failed_terminal :
    ∀ env : FallbackEnv,
      (tryEasyocrDirect env.easyocrConv).1 = false →
      (tryQpdfPreprocessing env.qpdfRun env.qpdfMinimal env.qpdfDefault).1 = false →
      (tryGhostscriptPreprocessing [env.gs1, env.gs2, env.gs3]).1 = false →
      (tryImageOcrProcessing env.ocr env.forceEasyConv env.forceTessConv).1 = false →
      processWithFallback env = (false, none, "all_failed") ∧
      (attemptHistory env).map (fun a => a.strategyName) = strategyOrder := by
  intro env h0 h1 h2 h3
  constructor
  · simp [processWithFallback, h0, h1, h2, h3]
  · simp [attemptHistory, strategyOrder, h0, h1, h2, h3]

/-- Witness for the amended C2: the concrete all-fail run. -/
theorem claim_C2_all_failed_terminal_witness :
    processWithFallback allFailEnvA = (false, none, "all_failed") ∧
    (attemptHistory allFailEnvA).map (fun a => a.strategyName) = strategyOrder :=
  claim_C2_all_failed_terminal allFailEnvA rfl rfl rfl rfl

/-! ## HierarchyConverter._build_hierarchical_structure: tree assembly
(src/app/services/processor/hierarchy_converter.py lines 273-304, 475-516)

The id/children skeleton of the assembled forest.  Each emitted node's
payload fields are those of `_convert_to_tree_element`, modelled above; the
completeness claim only counts nodes, so the skeleton carries the node id
and the (ordered) children. -/

/-- A node of the assembled hierarchy: its simple id and its children. -/
inductive FTree where
  | node (id : String) (children : List FTree)

/-- Total number of nodes of a forest, counted recursively through
children. -/
def forestSize : List FTree → Nat
  | [] => 0
  | .node _ cs :: ts => 1 + forestSize cs + forestSize ts

/-- `parent_child_map.get(simple_id, [])` for the dict modelled as an
association list with (dict-unique) keys. -/
def pcmLookup (pcm : List (String × List String)) (k : String) : List String :=
  match pcm.find? (fun e => e.1 = k) with
  | some e => e.2
  | none => []

/-- The recursive child walk of `HierarchyConverter._build_tree_element`
(hierarchy_converter.py lines 475-516), with the parent already marked
processed: per child key of the current node, recurse only when the key
names an existing element (`child_key in elements_by_id`) not yet processed
(`child_key not in processed`), threading the `processed` set.  The
returned set is bracketed between the incoming set and the valid-id set,
which also bounds the recursion. -/
def buildChildrenAux (cm : String → List String) (valid : Finset String) :
    (cs : List String) → (p : Finset String) → p ⊆ valid →
    List FTree × {q : Finset String // p ⊆ q ∧ q ⊆ valid}
  | [], p, hp => ([], ⟨p, Finset.Subset.refl p, hp⟩)
  | c :: rest, p, hp =>
    if hc : c ∈ valid ∧ c ∉ p then
      match buildChildrenAux cm valid (cm c) (insert c p)
          (Finset.insert_subset hc.1 hp) with
      | (ts1, ⟨q1, hq1, hq2⟩) =>
        match buildChildrenAux cm valid rest q1 hq2 with
        | (ts2, ⟨q2, hq3, hq4⟩) =>
          (FTree.node c ts1 :: ts2,
            ⟨q2, (((Finset.subset_insert c p).trans hq1).trans hq3), hq4⟩)
    else buildChildrenAux cm valid rest p hp
termination_by cs p _ => (valid.card + 1 - p.card, cs.length)
decreasing_by
  · apply Prod.Lex.left
    have h1 : (insert c p).card = p.card + 1 := Finset.card_insert_of_not_mem hc.2
    have h2 : (insert c p).card ≤ valid.card :=
      Finset.card_le_card (Finset.insert_subset hc.1 hp)
    omega
  · apply Prod.Lex.left
    have h1 : (insert c p).card = p.card + 1 := Finset.card_insert_of_not_mem hc.2
    have h3 : (insert c p).card ≤ q1.card := Finset.card_le_card hq1
    have h4 : q1.card ≤ valid.card := Finset.card_le_card hq2
    omega
  · apply Prod.Lex.right
    simp

/-- `HierarchyConverter._build_tree_element` at a root: mark the root
processed, then walk its child keys. -/
def buildTreeElement (cm : String → List String) (valid : Finset String)
    (id : String) (p : Finset String) (hp : p ⊆ valid) (hid : id ∈ valid) :
    FTree × {q : Finset String // insert id p ⊆ q ∧ q ⊆ valid} :=
  let r := buildChildrenAux cm valid (cm id) (insert id p)
    (Finset.insert_subset hid hp)
  (FTree.node id r.1, ⟨r.2.val, r.2.property.1, r.2.property.2⟩)

/-- The root loop of `HierarchyConverter._build_hierarchical_structure`
(hierarchy_converter.py lines 277-293): per id in insertion order, skip ids
already processed and ids occurring in some child list (`allCh`); build a
tree from each remaining root. -/
def phase1Roots (cm : String → List String) (valid : Finset String)
    (allCh : List String) :
    (rs : List String) → (p : Finset String) → p ⊆ valid →
    (∀ x ∈ rs, x ∈ valid) →
    List FTree × {q : Finset String // p ⊆ q ∧ q ⊆ valid}
  | [], p, hp, _ => ([], ⟨p, Finset.Subset.refl p, hp⟩)
  | id :: rest, p, hp, hrs =>
    if _hmem : id ∈ p then
      phase1Roots cm valid allCh rest p hp (fun x hx => hrs x (List.mem_cons_of_mem _ hx))
    else if _hch : id ∈ allCh then
      phase1Roots cm valid allCh rest p hp (fun x hx => hrs x (List.mem_cons_of_mem _ hx))
    else
      match buildTreeElement cm valid id p hp (hrs id (List.mem_cons_self id rest)) with
      | (t1, ⟨q1, hq1, hq2⟩) =>
        match phase1Roots cm valid allCh rest q1 hq2
            (fun x hx => hrs x (List.mem_cons_of_mem _ hx)) with
        | (ts2, ⟨q2, hq3, hq4⟩) =>
          (t1 :: ts2,
            ⟨q2, (((Finset.subset_insert id p).trans hq1).trans hq3), hq4⟩)

/-- The leftover loop of `_build_hierarchical_structure` (hierarchy_converter.py
lines 296-302): ids not yet processed are appended as flat (childless)
nodes, marking them processed as it goes. -/
def phase2Flat : List String → Finset String → List FTree
  | [], _ => []
  | id :: rest, p =>
    if id ∈ p then phase2Flat rest p
    else FTree.node id [] :: phase2Flat rest (insert id p)

/-- `HierarchyConverter._build_hierarchical_structure` (hierarchy_converter.py
lines 273-304), tree-assembly aspect: the root-walk forest followed by the
flat leftovers.  `ids` is the insertion-ordered key list of
`elements_by_id` (the `ID-k` keys, distinct by construction — see the C7
development); `pcm` is the parent-child map after semantic and spatial
processing. -/
def buildForest (pcm : List (String × List String)) (ids : List String) :
    List FTree :=
  let cm := pcmLookup pcm
  let allCh := (pcm.map Prod.snd).flatten
  let r1 := phase1Roots cm ids.toFinset allCh ids ∅
    (Finset.empty_subset _) (fun _x hx => List.mem_toFinset.mpr hx)
  r1.1 ++ phase2Flat ids r1.2.val

theorem buildChildrenAux_card (cm : String → List String) (valid : Finset String) :
    ∀ (cs : List String) (p : Finset String) (hp : p ⊆ valid),
      ((buildChildrenAux cm valid cs p hp).2.val).card =
        p.card + forestSize (buildChildrenAux cm valid cs p hp).1 := by
  intro cs p hp
  induction cs, p, hp using buildChildrenAux.induct cm valid with
  | case1 p hp =>
    rw [buildChildrenAux]
    simp [forestSize]
  | case2 c rest p hp hc ts1 q1 hq1 hq2 heq1 ts2 q2 hq3 hq4 heq2 hpx ih1 ih2 =>
    rw [heq1] at ih1
    rw [heq2] at ih2
    simp only at ih1 ih2
    rw [buildChildrenAux]
    simp only [dif_pos hc, heq1, heq2]
    simp only [forestSize]
    have hcard : (insert c p).card = p.card + 1 := Finset.card_insert_of_not_mem hc.2
    omega
  | case3 c rest p hp hc hpx ih =>
    rw [buildChildrenAux]
    simp only [dif_neg hc]
    exact ih

theorem buildTreeElement_card (cm : String → List String) (valid : Finset String)
    (id : String) (p : Finset String) (hp : p ⊆ valid) (hid : id ∈ valid)
    (hnot : id ∉ p) :
    ((buildTreeElement cm valid id p hp hid).2.val).card =
      p.card + forestSize [(buildTreeElement cm valid id p hp hid).1] := by
  have h := buildChildrenAux_card cm valid (cm id) (insert id p)
    (Finset.insert_subset hid hp)
  have hcard : (insert id p).card = p.card + 1 := Finset.card_insert_of_not_mem hnot
  simp only [buildTreeElement, forestSize]
  omega

theorem phase1Roots_card (cm : String → List String) (valid : Finset String)
    (allCh : List String) :
    ∀ (rs : List String) (p : Finset String) (hp : p ⊆ valid)
      (hrs : ∀ x ∈ rs, x ∈ valid),
      ((phase1Roots cm valid allCh rs p hp hrs).2.val).card =
        p.card + forestSize (phase1Roots cm valid allCh rs p hp hrs).1 := by
  intro rs
  induction rs with
  | nil =>
    intro p hp hrs
    rw [phase1Roots]
    simp [forestSize]
  | cons id rest ih =>
    intro p hp hrs
    rw [phase1Roots]
    by_cases h1 : id ∈ p
    · simp only [dif_pos h1]
      exact ih p hp _
    · simp only [dif_neg h1]
      by_cases h2 : id ∈ allCh
      · simp only [dif_pos h2]
        exact ih p hp _
      · simp only [dif_neg h2]
        split
        rename_i t1 q1 hq1 hq2 heqA
        split
        rename_i ts2 q2 hq3 hq4 heqB
        have hbt := buildTreeElement_card cm valid id p hp
          (hrs id (List.mem_cons_self id rest)) h1
        rw [show buildTreeElement cm valid id p hp
          (hrs id (List.mem_cons_self id rest)) = (t1, ⟨q1, hq1, hq2⟩) from heqA] at hbt
        have hp1 := ih q1 hq2 (fun x hx => hrs x (List.mem_cons_of_mem _ hx))
        rw [show phase1Roots cm valid allCh rest q1 hq2
          (fun x hx => hrs x (List.mem_cons_of_mem _ hx)) =
            (ts2, ⟨q2, hq3, hq4⟩) from heqB] at hp1
        simp only at hbt hp1
        cases t1 with
        | node nid ncs =>
          simp only [forestSize] at hbt ⊢
          omega

theorem phase2Flat_size :
    ∀ (rs : List String) (p : Finset String), rs.Nodup →
      forestSize (phase2Flat rs p) =
        (rs.filter (fun x => decide (x ∉ p))).length := by
  intro rs
  induction rs with
  | nil => intro p _; simp [phase2Flat, forestSize]
  | cons id rest ih =>
    intro p hnd
    obtain ⟨hid, hnd'⟩ := List.nodup_cons.mp hnd
    rw [phase2Flat]
    by_cases h : id ∈ p
    · rw [if_pos h, ih p hnd']
      simp [List.filter_cons, h]
    · rw [if_neg h]
      have hcong : rest.filter (fun x => decide (x ∉ insert id p)) =
          rest.filter (fun x => decide (x ∉ p)) := by
        apply List.filter_congr
        intro x hx
        have hne : x ≠ id := fun heq => hid (heq ▸ hx)
        simp [Finset.mem_insert, hne]
      simp only [forestSize, ih (insert id p) hnd', hcong]
      simp [List.filter_cons, h]
      omega

theorem forestSize_append :
    ∀ (f1 f2 : List FTree), forestSize (f1 ++ f2) = forestSize f1 + forestSize f2 := by
  intro f1 f2
  induction f1 with
  | nil => simp [forestSize]
  | cons t ts ih =>
    cases t with
    | node i cs =>
      simp only [List.cons_append, forestSize, ih]
      omega

theorem length_filter_mem_split (l : List String) (q : Finset String) :
    (l.filter (fun x => decide (x ∈ q))).length +
      (l.filter (fun x => decide (x ∉ q))).length = l.length := by
  induction l with
  | nil => simp
  | cons a l ihl =>
    simp only [decide_not] at ihl ⊢
    by_cases ha : a ∈ q <;> simp [List.filter_cons, ha] <;> omega

theorem card_add_filter_not_mem (ids : List String) (q : Finset String)
    (hnd : ids.Nodup) (hsub : q ⊆ ids.toFinset) :
    q.card + (ids.filter (fun x => decide (x ∉ q))).length = ids.length := by
  have hsplit := length_filter_mem_split ids q
  have hq : (ids.filter (fun x => decide (x ∈ q))).toFinset = q := by
    ext x
    simp only [List.mem_toFinset, List.mem_filter, decide_eq_true_eq]
    constructor
    · exact fun hx => hx.2
    · intro hx
      exact ⟨List.mem_toFinset.mp (hsub hx), hx⟩
  have hlen := List.toFinset_card_of_nodup (hnd.filter (fun x => decide (x ∈ q)))
  rw [hq] at hlen
  omega

/-- C6: for every parent-child map and every (duplicate-free) list of
element ids, the forest assembled by
`HierarchyConverter._build_hierarchical_structure` contains each input
element exactly once — the total number of nodes reachable from the
returned root elements, counted recursively through children, equals the
number of input elements. -/
theorem claim_C6_forest_completeness
    (pcm : List (String × List String)) (ids : List String) (hnd : ids.Nodup) :
    forestSize (buildForest pcm ids) = ids.length := by
  rw [buildForest]
  cases hph : phase1Roots (pcmLookup pcm) ids.toFinset
      ((pcm.map Prod.snd).flatten) ids ∅ (Finset.empty_subset _)
      (fun _x hx => List.mem_toFinset.mpr hx) with
  | mk ts1 sub1 =>
    obtain ⟨q1, hq1, hq2⟩ := sub1
    have hcard := phase1Roots_card (pcmLookup pcm) ids.toFinset
      ((pcm.map Prod.snd).flatten) ids ∅ (Finset.empty_subset _)
      (fun _x hx => List.mem_toFinset.mpr hx)
    rw [hph] at hcard
    simp only [Finset.card_empty] at hcard
    simp only
    rw [forestSize_append, phase2Flat_size ids q1 hnd]
    have := card_add_filter_not_mem ids q1 hnd hq2
    omega

/-- Witness for C6: two elements, the second a child of the first — the
forest holds exactly two nodes. -/
theorem claim_C6_forest_completeness_witness :
    (["ID-1", "ID-2"] : List String).Nodup ∧
    forestSize (buildForest [("ID-1", ["ID-2"])] ["ID-1", "ID-2"]) = 2 :=
  ⟨by decide, claim_C6_forest_completeness [("ID-1", ["ID-2"])] ["ID-1", "ID-2"]
    (by decide)⟩

/-! ## HierarchyConverter._add_spatial_relationships
(src/app/services/processor/hierarchy_converter.py lines 397-448) -/

/-- `parent_elem.get("type") in ["table", "list"]` (a missing type is `None`,
which is not in the list). -/
def typeIsTableOrList (e : DictElem) : Bool :=
  match e.type with
  | some t => t = "table" || t = "list"
  | none => false

/-- `child_elem.get("type") in ["table_cell", "list_item"]`. -/
def typeIsCellOrItem (e : DictElem) : Bool :=
  match e.type with
  | some t => t = "table_cell" || t = "list_item"
  | none => false

/-- The removal loop of hierarchy_converter.py lines 434-437: for every
parent other than `parentKey`, `other_children.remove(child_key)` deletes
the first occurrence of `childKey` (a no-op on lists not containing it). -/
def eraseFromOthers (M : String → List String) (parentKey childKey : String) :
    String → List String :=
  fun k => if k = parentKey then M k else (M k).erase childKey

/-- `parent_child_map[parent_key] = children`. -/
def updateMap (M : String → List String) (k : String) (v : List String) :
    String → List String :=
  fun x => if x = k then v else M x

/-- The inner child scan of `_add_spatial_relationships`
(hierarchy_converter.py lines 418-442) for one table/list parent: per
element, skip the parent itself, skip empty bboxes, and when the child is
spatially contained and of type table_cell/list_item and not yet a child,
append it and remove it from every other parent's list. -/
def spatialChildLoop (parentKey : String) (parentBbox : BBoxDict) :
    List (String × DictElem) → List String → (String → List String) →
    List String × (String → List String)
  | [], children, M => (children, M)
  | (childKey, childElem) :: rest, children, M =>
    if childKey = parentKey then
      spatialChildLoop parentKey parentBbox rest children M
    else if childElem.bbox.isEmptyDict then
      spatialChildLoop parentKey parentBbox rest children M
    else if isContained parentBbox childElem.bbox then
      if typeIsCellOrItem childElem then
        if childKey ∈ children then
          spatialChildLoop parentKey parentBbox rest children M
        else
          spatialChildLoop parentKey parentBbox rest (children ++ [childKey])
            (eraseFromOthers M parentKey childKey)
      else spatialChildLoop parentKey parentBbox rest children M
    else spatialChildLoop parentKey parentBbox rest children M

/-- The outer parent scan of `_add_spatial_relationships`
(hierarchy_converter.py lines 408-445): per element with a non-empty bbox
and type table/list, run the child scan seeded with the parent's current
child list, then write the (non-empty) child list back into the map. -/
def addSpatialLoop (items : List (String × DictElem)) :
    List (String × DictElem) → (String → List String) → (String → List String)
  | [], M => M
  | (parentKey, parentElem) :: rest, M =>
    if parentElem.bbox.isEmptyDict then addSpatialLoop items rest M
    else if typeIsTableOrList parentElem then
      let r := spatialChildLoop parentKey parentElem.bbox items (M parentKey) M
      let M2 := if r.1 ≠ [] then updateMap r.2 parentKey r.1 else r.2
      addSpatialLoop items rest M2
    else addSpatialLoop items rest M

/-- `HierarchyConverter._add_spatial_relationships` over the page's
`elements_by_id` entries (in insertion order) and the incoming
parent-child map. -/
def addSpatialRelationships (items : List (String × DictElem))
    (M : String → List String) : String → List String :=
  addSpatialLoop items items M

/-- A 100×100 table bbox at the origin. -/
def spatialTableBbox : BBoxDict :=
  ⟨some 0, some 0, some 100, some 100, none, none, none, none⟩

/-- A 10×10 cell bbox inside the table bbox. -/
def spatialCellBbox : BBoxDict :=
  ⟨some 10, some 10, some 20, some 20, none, none, none, none⟩

/-- A table element with the 100×100 bbox. -/
def spatialTableElem : DictElem := ⟨some "table", none, spatialTableBbox, none⟩

/-- A table_cell element with the 10×10 bbox. -/
def spatialCellElem : DictElem := ⟨some "table_cell", none, spatialCellBbox, none⟩

/-- Two tables with identical bboxes and one table cell contained in both. -/
def spatialItemsExample : List (String × DictElem) :=
  [("T1", spatialTableElem), ("T2", spatialTableElem), ("C", spatialCellElem)]

/-- C5 counterexample: the cell `C` is spatially contained (margin 5) in the
bbox of table `T1`, yet after the spatial-correction pass it is not a child
of `T1` — the later table `T2`, which also contains it, has stolen it — so
"is a child of that geometric container" fails for `T1`. -/
theorem claim_C5_counterexample :
    isContained spatialTableBbox spatialCellBbox = true ∧
    (addSpatialRelationships spatialItemsExample (fun _ => [])) "T1" = [] ∧
    (addSpatialRelationships spatialItemsExample (fun _ => [])) "T2" = ["C"] := by
  have hTT : isContained spatialTableBbox spatialTableBbox = true := by
    norm_num [isContained, spatialTableBbox]
  have hTC : isContained spatialTableBbox spatialCellBbox = true := by
    norm_num [isContained, spatialTableBbox, spatialCellBbox]
  have hTe : spatialTableBbox.isEmptyDict = false := by
    simp [BBoxDict.isEmptyDict, spatialTableBbox]
  have hCe : spatialCellBbox.isEmptyDict = false := by
    simp [BBoxDict.isEmptyDict, spatialCellBbox]
  refine ⟨hTC, ?_, ?_⟩ <;>
  simp [addSpatialRelationships, addSpatialLoop, spatialChildLoop,
    spatialItemsExample, spatialTableElem, spatialCellElem, hTT, hTC, hTe, hCe,
    typeIsTableOrList, typeIsCellOrItem, eraseFromOthers, updateMap]

/-- The inner child scan never modifies the current parent's own map entry
(the removal loop of lines 434-437 skips `other_parent == parent_key`). -/
theorem spatialChildLoop_self (pk : String) (pb : BBoxDict) :
    ∀ (cs : List (String × DictElem)) (children : List String)
      (M : String → List String),
      (spatialChildLoop pk pb cs children M).2 pk = M pk := by
  intro cs
  induction cs with
  | nil => intro children M; rfl
  | cons it rest ih =>
    intro children M
    obtain ⟨k, e⟩ := it
    rw [spatialChildLoop]
    split_ifs with h1 h2 h3 h4 h5
    · exact ih children M
    · exact ih children M
    · exact ih children M
    · rw [ih (children ++ [k]) (eraseFromOthers M pk k)]
      simp [eraseFromOthers]
    · exact ih children M
    · exact ih children M

/-- The condition under which the event for child key `ck` (with element
`ce`) does *not* fire inside the scan for parent `pk`/`pb`. -/
def ckInert (ck pk : String) (pb : BBoxDict) (it : String × DictElem) : Prop :=
  it.1 = ck →
    (ck = pk ∨ it.2.bbox.isEmptyDict = true ∨
     isContained pb it.2.bbox = false ∨ typeIsCellOrItem it.2 = false)

/-- Neutral scan: when no element of `cs` fires the `ck` event, the scan
only appends keys other than `ck` to the child list, and neither the
`ck`-memberships nor the `ck`-occurrence-counts of any map entry
increase. -/
theorem spatialChildLoop_inert (ck pk : String) (pb : BBoxDict) :
    ∀ (cs : List (String × DictElem)) (children : List String)
      (M : String → List String),
      (∀ it ∈ cs, ckInert ck pk pb it) →
      (∃ ext, (spatialChildLoop pk pb cs children M).1 = children ++ ext ∧
        ck ∉ ext) ∧
      (∀ k, (ck ∈ (spatialChildLoop pk pb cs children M).2 k ↔ ck ∈ M k) ∧
        ((spatialChildLoop pk pb cs children M).2 k).count ck ≤ (M k).count ck) := by
  intro cs
  induction cs with
  | nil =>
    intro children M _
    exact ⟨⟨[], by simp [spatialChildLoop], by simp⟩,
      fun k => ⟨Iff.rfl, Nat.le_refl _⟩⟩
  | cons it rest ih =>
    intro children M hinert
    obtain ⟨k, e⟩ := it
    have hrest : ∀ it ∈ rest, ckInert ck pk pb it :=
      fun it hit => hinert it (List.mem_cons_of_mem _ hit)
    have hhead : ckInert ck pk pb (k, e) := hinert _ (List.mem_cons_self _ _)
    rw [spatialChildLoop]
    split_ifs with h1 h2 h3 h4 h5
    · exact ih children M hrest
    · exact ih children M hrest
    · exact ih children M hrest
    · -- the append branch: k cannot be ck here
      have hkck : k ≠ ck := by
        intro heq
        rcases hhead heq with h | h | h | h
        · exact h1 (heq.trans h)
        · exact h2 h
        · exact absurd h3 (by simp [h])
        · exact absurd h4 (by simp [h])
      obtain ⟨hext, hmap⟩ := ih (children ++ [k]) (eraseFromOthers M pk k) hrest
      refine ⟨?_, ?_⟩
      · obtain ⟨ext, hex, hnm⟩ := hext
        refine ⟨k :: ext, by simpa using hex, ?_⟩
        simp only [List.mem_cons, not_or]
        exact ⟨fun heq => hkck heq.symm, hnm⟩
      · intro k2
        obtain ⟨hmem, hcnt⟩ := hmap k2
        constructor
        · rw [hmem]
          by_cases hk2 : k2 = pk
          · simp [eraseFromOthers, hk2]
          · simp only [eraseFromOthers, if_neg hk2]
            exact ⟨fun h => List.mem_of_mem_erase h,
              fun h => (List.mem_erase_of_ne (fun heq => hkck heq.symm)).mpr h⟩
        · refine hcnt.trans ?_
          by_cases hk2 : k2 = pk
          · simp [eraseFromOthers, hk2]
          · simp only [eraseFromOthers, if_neg hk2]
            exact List.Sublist.count_le (List.erase_sublist _ _) ck
    · exact ih children M hrest
    · exact ih children M hrest

/-- Trigger scan: when `cs1 ++ (ck, ce) :: cs2` holds exactly one `ck` entry
and its event fires, the scan appends `ck` (unless already a child); when it
appends, `ck` is removed from every other parent's entry. -/
theorem spatialChildLoop_trigger (ck pk : String) (pb : BBoxDict) (ce : DictElem)
    (hne : ¬ ck = pk) (hb : ce.bbox.isEmptyDict = false)
    (hcont : isContained pb ce.bbox = true) (hti : typeIsCellOrItem ce = true) :
    ∀ (cs1 cs2 : List (String × DictElem)) (children : List String)
      (M : String → List String),
      (∀ it ∈ cs1, it.1 ≠ ck) → (∀ it ∈ cs2, it.1 ≠ ck) →
      (∀ k, (M k).count ck ≤ 1) →
      ck ∈ (spatialChildLoop pk pb (cs1 ++ (ck, ce) :: cs2) children M).1 ∧
      (ck ∈ children →
        (∀ k, (ck ∈ (spatialChildLoop pk pb (cs1 ++ (ck, ce) :: cs2) children M).2 k ↔
            ck ∈ M k) ∧
          ((spatialChildLoop pk pb (cs1 ++ (ck, ce) :: cs2) children M).2 k).count ck ≤
            (M k).count ck) ∧
        ((spatialChildLoop pk pb (cs1 ++ (ck, ce) :: cs2) children M).1).count ck =
          children.count ck) ∧
      (ck ∉ children →
        (∀ k, k ≠ pk →
          ck ∉ (spatialChildLoop pk pb (cs1 ++ (ck, ce) :: cs2) children M).2 k) ∧
        ((spatialChildLoop pk pb (cs1 ++ (ck, ce) :: cs2) children M).1).count ck = 1) := by
  intro cs1
  induction cs1 with
  | nil =>
    intro cs2 children M _ h2 hcnt
    have hinert2 : ∀ it ∈ cs2, ckInert ck pk pb it :=
      fun it hit heq => absurd heq (h2 it hit)
    simp only [List.nil_append]
    rw [spatialChildLoop]
    simp only [if_neg hne, hb, hcont, hti, Bool.false_eq_true, if_false,
      eq_self_iff_true, if_true]
    by_cases hmem : ck ∈ children
    · rw [if_pos hmem]
      obtain ⟨⟨ext, hex, hnm⟩, hmap⟩ := spatialChildLoop_inert ck pk pb cs2 children M hinert2
      refine ⟨?_, ?_, ?_⟩
      · rw [hex]
        exact List.mem_append_left _ hmem
      · intro _
        refine ⟨hmap, ?_⟩
        rw [hex, List.count_append, List.count_eq_zero.mpr hnm]
        omega
      · intro hcontr
        exact absurd hmem hcontr
    · rw [if_neg hmem]
      obtain ⟨⟨ext, hex, hnm⟩, hmap⟩ := spatialChildLoop_inert ck pk pb cs2
        (children ++ [ck]) (eraseFromOthers M pk ck) hinert2
      refine ⟨?_, ?_, ?_⟩
      · rw [hex]
        exact List.mem_append_left _ (List.mem_append_right _ (List.mem_singleton.mpr rfl))
      · intro hcontr
        exact absurd hcontr hmem
      · intro _
        constructor
        · intro k hk
          obtain ⟨hm, _⟩ := hmap k
          rw [hm]
          simp only [eraseFromOthers, if_neg hk]
          intro hin
          have hc1 := hcnt k
          have := List.count_erase_self ck (M k)
          have hmem2 : ck ∈ M k := List.mem_of_mem_erase hin
          have hpos : 1 ≤ (M k).count ck := List.one_le_count_iff.mpr hmem2
          have hz : ((M k).erase ck).count ck = 0 := by omega
          exact (List.count_eq_zero.mp hz) hin
        · rw [hex, List.count_append, List.count_eq_zero.mpr hnm, List.count_append]
          simp [List.count_eq_zero.mpr hmem]
  | cons it cs1' ih =>
    intro cs2 children M h1 h2 hcnt
    obtain ⟨k, e⟩ := it
    have hkck : k ≠ ck := h1 _ (List.mem_cons_self _ _)
    have h1' : ∀ it ∈ cs1', it.1 ≠ ck := fun it hit => h1 it (List.mem_cons_of_mem _ hit)
    simp only [List.cons_append]
    rw [spatialChildLoop]
    split_ifs with hc1 hc2 hc3 hc4 hc5
    · exact ih cs2 children M h1' h2 hcnt
    · exact ih cs2 children M h1' h2 hcnt
    · exact ih cs2 children M h1' h2 hcnt
    · -- append of k (k ≠ ck)
      have hcnt' : ∀ k2, ((eraseFromOthers M pk k) k2).count ck ≤ 1 := by
        intro k2
        refine le_trans ?_ (hcnt k2)
        by_cases hk2 : k2 = pk
        · simp [eraseFromOthers, hk2]
        · simp only [eraseFromOthers, if_neg hk2]
          exact List.Sublist.count_le (List.erase_sublist _ _) ck
      obtain ⟨ha, hbIn, hbOut⟩ := ih cs2 (children ++ [k]) (eraseFromOthers M pk k) h1' h2 hcnt'
      have hmemiff : ck ∈ children ++ [k] ↔ ck ∈ children := by
        simp [hkck.symm]
      refine ⟨ha, ?_, ?_⟩
      · intro hmem
        obtain ⟨hmap, hcount⟩ := hbIn (hmemiff.mpr hmem)
        refine ⟨?_, ?_⟩
        · intro k2
          obtain ⟨hm, hc⟩ := hmap k2
          constructor
          · rw [hm]
            by_cases hk2 : k2 = pk
            · simp [eraseFromOthers, hk2]
            · simp only [eraseFromOthers, if_neg hk2]
              exact ⟨fun h => List.mem_of_mem_erase h,
                fun h => (List.mem_erase_of_ne (fun heq => hkck heq.symm)).mpr h⟩
          · refine hc.trans ?_
            by_cases hk2 : k2 = pk
            · simp [eraseFromOthers, hk2]
            · simp only [eraseFromOthers, if_neg hk2]
              exact List.Sublist.count_le (List.erase_sublist _ _) ck
        · rw [hcount, List.count_append]
          simp [List.count_singleton, hkck.symm]
      · intro hmem
        obtain ⟨hmap, hcount⟩ := hbOut (fun h => hmem (hmemiff.mp h))
        exact ⟨hmap, hcount⟩
    · exact ih cs2 children M h1' h2 hcnt
    · exact ih cs2 children M h1' h2 hcnt

/-- Whether processing parent `(pk, pe)` re-parents child `ck` (element
`ce`): the parent passes the outer guards (non-empty bbox, type table/list)
and the child passes the inner guards (distinct key, non-empty bbox,
containment, type table_cell/list_item). -/
def ckContainerB (ck : String) (ce : DictElem) (pk : String) (pe : DictElem) :
    Bool :=
  !pe.bbox.isEmptyDict && typeIsTableOrList pe && !(decide (ck = pk)) &&
  !ce.bbox.isEmptyDict && isContained pe.bbox ce.bbox && typeIsCellOrItem ce

/-- The owner of child `ck` after the outer scan processes `ps`: each
re-parenting container overwrites the previous owner. -/
def ownerAfter (ck : String) (ce : DictElem) :
    List (String × DictElem) → Option String → Option String
  | [], o => o
  | (pk, pe) :: rest, o =>
    ownerAfter ck ce rest (if ckContainerB ck ce pk pe then some pk else o)

theorem updateMap_self (M : String → List String) (k : String) (v : List String) :
    updateMap M k v k = v := by
  simp [updateMap]

theorem updateMap_other (M : String → List String) (k : String) (v : List String)
    (k2 : String) (h : ¬ k2 = k) : updateMap M k v k2 = M k2 := by
  simp [updateMap, h]

/-- Outer scan: under unique keys and an at-most-one-owner starting map,
membership of `ck` in the final map is exactly "being the owner computed by
`ownerAfter`", and every entry keeps at most one `ck` occurrence. -/
theorem addSpatialLoop_owner (ck : String) (ce : DictElem)
    (items is1 is2 : List (String × DictElem))
    (heq : items = is1 ++ (ck, ce) :: is2)
    (h1 : ∀ it ∈ is1, it.1 ≠ ck) (h2 : ∀ it ∈ is2, it.1 ≠ ck) :
    ∀ (ps : List (String × DictElem)) (M : String → List String)
      (owner : Option String),
      (∀ k, (M k).count ck ≤ 1) →
      (∀ k, (ck ∈ M k ↔ owner = some k)) →
      (∀ k, (ck ∈ addSpatialLoop items ps M k ↔
        ownerAfter ck ce ps owner = some k)) ∧
      (∀ k, (addSpatialLoop items ps M k).count ck ≤ 1) := by
  intro ps
  induction ps with
  | nil =>
    intro M owner hcnt hown
    rw [addSpatialLoop, ownerAfter]
    exact ⟨hown, hcnt⟩
  | cons it rest ih =>
    intro M owner hcnt hown
    obtain ⟨pk, pe⟩ := it
    rw [addSpatialLoop, ownerAfter]
    by_cases hA : pe.bbox.isEmptyDict
    · rw [if_pos hA]
      have hcb : ckContainerB ck ce pk pe = false := by
        simp [ckContainerB, hA]
      rw [hcb]
      simp only [Bool.false_eq_true, if_false]
      exact ih M owner hcnt hown
    · rw [if_neg hA]
      by_cases hB : typeIsTableOrList pe
      · rw [if_pos hB]
        by_cases hCB : ckContainerB ck ce pk pe = true
        · -- the ck event fires for this parent
          have hparts := hCB
          simp only [ckContainerB, Bool.and_eq_true, Bool.not_eq_true',
            decide_eq_false_iff_not] at hparts
          obtain ⟨⟨⟨⟨⟨_, _⟩, hnepk⟩, hceb⟩, hcont⟩, hti⟩ := hparts
          rw [heq]
          have htrig := spatialChildLoop_trigger ck pk pe.bbox ce hnepk hceb
            hcont hti is1 is2 (M pk) M h1 h2 hcnt
          obtain ⟨ha, hbIn, hbOut⟩ := htrig
          have hself := spatialChildLoop_self pk pe.bbox (is1 ++ (ck, ce) :: is2)
            (M pk) M
          rw [← heq] at *
          set r := spatialChildLoop pk pe.bbox items (M pk) M with hr
          have hne : r.1 ≠ [] := List.ne_nil_of_mem ha
          rw [if_pos hne, if_pos hCB]
          by_cases hm : ck ∈ M pk
          · obtain ⟨hmap, hcnt1⟩ := hbIn hm
            refine ih (updateMap r.2 pk r.1) (some pk) ?_ ?_
            · intro k
              by_cases hk : k = pk
              · subst hk
                rw [updateMap_self, hcnt1]
                exact hcnt k
              · rw [updateMap_other _ _ _ _ hk]
                exact ((hmap k).2).trans (hcnt k)
            · intro k
              by_cases hk : k = pk
              · subst hk
                rw [updateMap_self]
                simp [ha]
              · rw [updateMap_other _ _ _ _ hk, (hmap k).1, hown k,
                  (hown pk).mp hm]
          · obtain ⟨hout, hcnt1⟩ := hbOut hm
            refine ih (updateMap r.2 pk r.1) (some pk) ?_ ?_
            · intro k
              by_cases hk : k = pk
              · subst hk
                rw [updateMap_self, hcnt1]
              · rw [updateMap_other _ _ _ _ hk,
                  List.count_eq_zero.mpr (hout k hk)]
                omega
            · intro k
              by_cases hk : k = pk
              · subst hk
                rw [updateMap_self]
                simp [ha]
              · rw [updateMap_other _ _ _ _ hk]
                have hnk : ¬ ((some pk : Option String) = some k) := by
                  simp only [Option.some.injEq]
                  exact fun h => hk h.symm
                simp [hout k hk, hnk]
        · -- this container does not fire the ck event
          have hCB2 : ckContainerB ck ce pk pe = false := by
            simpa using hCB
          rw [hCB2]
          simp only [Bool.false_eq_true, if_false]
          have hinert : ∀ it ∈ items, ckInert ck pk pe.bbox it := by
            intro it hit hkey
            have hit2 : it = (ck, ce) := by
              rw [heq] at hit
              rcases List.mem_append.mp hit with hin | hin
              · exact absurd hkey (h1 it hin)
              · rcases List.mem_cons.mp hin with hin2 | hin2
                · exact hin2
                · exact absurd hkey (h2 it hin2)
            subst hit2
            by_contra hno
            push_neg at hno
            obtain ⟨hn1, hn2, hn3, hn4⟩ := hno
            have eA : pe.bbox.isEmptyDict = false := by simpa using hA
            have e2 : ce.bbox.isEmptyDict = false := by simpa using hn2
            have e3 : isContained pe.bbox ce.bbox = true := by simpa using hn3
            have e4 : typeIsCellOrItem ce = true := by simpa using hn4
            have hcb : ckContainerB ck ce pk pe = true := by
              simp [ckContainerB, eA, hB, hn1, e2, e3, e4]
            exact absurd hcb (by simp [hCB2])
          obtain ⟨⟨ext, hex, hnm⟩, hmap⟩ :=
            spatialChildLoop_inert ck pk pe.bbox items (M pk) M hinert
          have hself := spatialChildLoop_self pk pe.bbox items (M pk) M
          set r := spatialChildLoop pk pe.bbox items (M pk) M with hr
          by_cases hne : r.1 ≠ []
          case neg =>
            rw [if_neg hne]
            refine ih r.2 owner ?_ ?_
            · intro k
              exact ((hmap k).2).trans (hcnt k)
            · intro k
              rw [(hmap k).1]
              exact hown k
          · rw [if_pos hne]
            refine ih (updateMap r.2 pk r.1) owner ?_ ?_
            · intro k
              by_cases hk : k = pk
              · subst hk
                rw [updateMap_self, hex, List.count_append,
                  List.count_eq_zero.mpr hnm]
                have := hcnt k
                omega
              · rw [updateMap_other _ _ _ _ hk]
                exact ((hmap k).2).trans (hcnt k)
            · intro k
              by_cases hk : k = pk
              · subst hk
                rw [updateMap_self, hex]
                simp only [List.mem_append]
                rw [← hown k]
                constructor
                · rintro (h | h)
                  · exact h
                  · exact absurd h hnm
                · exact Or.inl
              · rw [updateMap_other _ _ _ _ hk, (hmap k).1]
                exact hown k
      · rw [if_neg hB]
        have hcb : ckContainerB ck ce pk pe = false := by
          simp [ckContainerB, hB]
        rw [hcb]
        simp only [Bool.false_eq_true, if_false]
        exact ih M owner hcnt hown

theorem ownerAfter_of_no_container (ck : String) (ce : DictElem) :
    ∀ (ps : List (String × DictElem)) (o : Option String),
      ps.filter (fun it => ckContainerB ck ce it.1 it.2) = [] →
      ownerAfter ck ce ps o = o := by
  intro ps
  induction ps with
  | nil => intro o _; rfl
  | cons it rest ih =>
    intro o hf
    obtain ⟨pk, pe⟩ := it
    rw [List.filter_cons] at hf
    by_cases hc : ckContainerB ck ce pk pe
    · rw [if_pos (by simpa using hc)] at hf
      exact absurd hf (List.cons_ne_nil _ _)
    · rw [if_neg (by simpa using hc)] at hf
      rw [ownerAfter, if_neg (by simpa using hc)]
      exact ih o hf

theorem ownerAfter_eq_last_container (ck : String) (ce : DictElem) :
    ∀ (ps : List (String × DictElem)) (o : Option String)
      (lastIt : String × DictElem),
      (ps.filter (fun it => ckContainerB ck ce it.1 it.2)).getLast? = some lastIt →
      ownerAfter ck ce ps o = some lastIt.1 := by
  intro ps
  induction ps with
  | nil =>
    intro o lastIt h
    simp [List.filter_nil] at h
  | cons it rest ih =>
    intro o lastIt h
    obtain ⟨pk, pe⟩ := it
    rw [List.filter_cons] at h
    by_cases hc : ckContainerB ck ce pk pe
    · rw [if_pos (by simpa using hc)] at h
      rw [ownerAfter, if_pos (by simpa using hc)]
      cases hft : rest.filter (fun it => ckContainerB ck ce it.1 it.2) with
      | nil =>
        rw [hft] at h
        simp only [List.getLast?_singleton, Option.some.injEq] at h
        rw [ownerAfter_of_no_container ck ce rest (some pk) hft, ← h]
      | cons b l =>
        rw [hft] at h
        rw [List.getLast?_cons_cons] at h
        rw [← hft] at h
        exact ih (some pk) lastIt h
    · rw [if_neg (by simpa using hc)] at h
      rw [ownerAfter, if_neg (by simpa using hc)]
      exact ih o lastIt h

/-- C5 amended: after the spatial-correction pass, a table_cell/list_item
element contained in at least one table/list container is a child of the
*last-processed* such container — and of no other parent — provided each
incoming child list is duplicate-free for that key and the incoming map
gives the key at most one parent (as the semantic phase does). -/
theorem claim_C5_last_container_owns
    (items : List (String × DictElem)) (M0 : String → List String)
    (ck : String) (ce : DictElem)
    (hmem : (ck, ce) ∈ items)
    (hkeys : (items.map Prod.fst).Nodup)
    (hcnt : ∀ k, (M0 k).count ck ≤ 1)
    (huniq : ∀ k1 k2, ck ∈ M0 k1 → ck ∈ M0 k2 → k1 = k2)
    (lastPk : String) (lastPe : DictElem)
    (hlast : (items.filter (fun it => ckContainerB ck ce it.1 it.2)).getLast? =
      some (lastPk, lastPe)) :
    ck ∈ addSpatialRelationships items M0 lastPk ∧
    ∀ k, k ≠ lastPk → ck ∉ addSpatialRelationships items M0 k := by
  obtain ⟨is1, is2, heq⟩ := List.append_of_mem hmem
  have hkeyparts : ck ∉ is1.map Prod.fst ∧ ck ∉ is2.map Prod.fst := by
    rw [heq, List.map_append, List.map_cons] at hkeys
    have := (List.nodup_middle.mp hkeys)
    have hni := (List.nodup_cons.mp this).1
    rw [List.mem_append] at hni
    exact ⟨fun h => hni (Or.inl h), fun h => hni (Or.inr h)⟩
  have h1 : ∀ it ∈ is1, it.1 ≠ ck := by
    intro it hit hk
    exact hkeyparts.1 (hk ▸ List.mem_map_of_mem Prod.fst hit)
  have h2 : ∀ it ∈ is2, it.1 ≠ ck := by
    intro it hit hk
    exact hkeyparts.2 (hk ▸ List.mem_map_of_mem Prod.fst hit)
  have howner : ∃ owner : Option String, ∀ k, (ck ∈ M0 k ↔ owner = some k) := by
    by_cases hex : ∃ k, ck ∈ M0 k
    · obtain ⟨k0, hk0⟩ := hex
      refine ⟨some k0, fun k => ⟨fun h => ?_, fun h => ?_⟩⟩
      · rw [huniq k0 k hk0 h]
      · cases h
        exact hk0
    · refine ⟨none, fun k => ⟨fun h => absurd ⟨k, h⟩ hex, fun h => ?_⟩⟩
      exact absurd h (by simp)
  obtain ⟨owner, hown⟩ := howner
  have hO := addSpatialLoop_owner ck ce items is1 is2 heq h1 h2 items M0 owner
    hcnt hown
  have hOA : ownerAfter ck ce items owner = some lastPk :=
    ownerAfter_eq_last_container ck ce items owner (lastPk, lastPe) hlast
  constructor
  · rw [addSpatialRelationships]
    exact (hO.1 lastPk).mpr hOA
  · intro k hk
    rw [addSpatialRelationships]
    intro hin
    have := (hO.1 k).mp hin
    rw [hOA] at this
    exact hk (Option.some.inj this).symm

/-- Witness for the amended C5: in the two-table scenario the cell ends up
under the last-processed containing table `T2` and under no other parent. -/
theorem claim_C5_last_container_owns_witness :
    ("C", spatialCellElem) ∈ spatialItemsExample ∧
    "C" ∈ addSpatialRelationships spatialItemsExample (fun _ => []) "T2" ∧
    "C" ∉ addSpatialRelationships spatialItemsExample (fun _ => []) "T1" := by
  have hTC : isContained spatialTableBbox spatialCellBbox = true := by
    norm_num [isContained, spatialTableBbox, spatialCellBbox]
  have hTe : spatialTableBbox.isEmptyDict = false := by
    simp [BBoxDict.isEmptyDict, spatialTableBbox]
  have hCe : spatialCellBbox.isEmptyDict = false := by
    simp [BBoxDict.isEmptyDict, spatialCellBbox]
  have hfil : spatialItemsExample.filter
      (fun it => ckContainerB "C" spatialCellElem it.1 it.2) =
      [("T1", spatialTableElem), ("T2", spatialTableElem)] := by
    simp [spatialItemsExample, ckContainerB, spatialTableElem, spatialCellElem,
      typeIsTableOrList, typeIsCellOrItem, hTC, hTe, hCe]
  have hlast : (spatialItemsExample.filter
      (fun it => ckContainerB "C" spatialCellElem it.1 it.2)).getLast? =
      some ("T2", spatialTableElem) := by
    rw [hfil]
    rfl
  have h := claim_C5_last_container_owns spatialItemsExample (fun _ => [])
    "C" spatialCellElem
    (by simp [spatialItemsExample])
    (by simp [spatialItemsExample])
    (fun k => by simp)
    (fun k1 k2 hm1 _ => absurd hm1 (List.not_mem_nil _))
    "T2" spatialTableElem hlast
  exact ⟨by simp [spatialItemsExample], h.1, h.2 "T1" (by decide)⟩

/-! ## LayoutExtractor text classifiers
(src/app/services/processor/layout_extractor.py lines 1157-1523)

Python strings are their codepoint lists (`String.data`); each `re` pattern
of the source is hand-compiled to a matcher over `List Char` (the patterns
involved are regular prefix/suffix/substring shapes whose character classes
are pairwise disjoint, so greedy matching is exact).  Python's `\s`, `\d`,
case mappings and `str.isupper`/`islower` are modelled on the character
ranges the repository's inputs use: ASCII, fullwidth forms, CJK
punctuation/ideographs and the Unicode spaces (other scripts' cased letters
and digits are not modelled). -/

/-- Python `\s` (Unicode whitespace, the ranges relevant here). -/
def pyIsSpace (c : Char) : Bool :=
  let n := c.toNat
  (9 ≤ n && n ≤ 13) || n = 32 || (28 ≤ n && n ≤ 31) || n = 0x85 || n = 0xa0 ||
  n = 0x1680 || (0x2000 ≤ n && n ≤ 0x200a) || n = 0x2028 || n = 0x2029 ||
  n = 0x202f || n = 0x205f || n = 0x3000

/-- Python `\d` and the explicit class `[0-9０-９]`. -/
def pyIsDigit (c : Char) : Bool :=
  ('0' ≤ c && c ≤ '9') || (0xFF10 ≤ c.toNat && c.toNat ≤ 0xFF19)

/-- Uppercase, on the ASCII and fullwidth ranges. -/
def pyIsUpperChar (c : Char) : Bool :=
  ('A' ≤ c && c ≤ 'Z') || (0xFF21 ≤ c.toNat && c.toNat ≤ 0xFF3A)

/-- Lowercase, on the ASCII and fullwidth ranges. -/
def pyIsLowerChar (c : Char) : Bool :=
  ('a' ≤ c && c ≤ 'z') || (0xFF41 ≤ c.toNat && c.toNat ≤ 0xFF5A)

/-- Cased, on the ASCII and fullwidth ranges. -/
def pyIsCased (c : Char) : Bool :=
  pyIsUpperChar c || pyIsLowerChar c

/-- Python `str.lower`, on the ASCII and fullwidth ranges. -/
def pyToLower (c : Char) : Char :=
  if 'A' ≤ c && c ≤ 'Z' then Char.ofNat (c.toNat + 32)
  else if 0xFF21 ≤ c.toNat && c.toNat ≤ 0xFF3A then Char.ofNat (c.toNat + 32)
  else c

/-- Python `str.strip()`. -/
def pyStrip (cs : List Char) : List Char :=
  ((cs.dropWhile pyIsSpace).reverse.dropWhile pyIsSpace).reverse

/-- Python `str.isupper()`: at least one cased character and every cased
character uppercase. -/
def pyIsUpperStr (cs : List Char) : Bool :=
  cs.any pyIsCased && cs.all (fun c => !pyIsCased c || pyIsUpperChar c)

/-- Substring search (`re.search` of a literal). -/
def hasSub (pat : List Char) : List Char → Bool
  | [] => pat.isEmpty
  | c :: rest => pat.isPrefixOf (c :: rest) || hasSub pat rest

/-- Four consecutive `\d` digits somewhere (`\d{4}` under `re.search`). -/
def hasRun4 : List Char → Bool
  | c1 :: c2 :: c3 :: c4 :: rest =>
    (pyIsDigit c1 && pyIsDigit c2 && pyIsDigit c3 && pyIsDigit c4) ||
      hasRun4 (c2 :: c3 :: c4 :: rest)
  | _ => false

/-- `re.search(pat ++ ".*\\d{4}", s)` for a literal `pat` (the `.*` never
needs to cross a newline on the repository's one-line footer texts). -/
def searchPatThen4 (pat : List Char) : List Char → Bool
  | [] => false
  | c :: rest =>
    (pat.isPrefixOf (c :: rest) && hasRun4 ((c :: rest).drop pat.length)) ||
      searchPatThen4 pat rest

/-- `^\s*\d+\s*$`. -/
def isPageNumberText (cs : List Char) : Bool :=
  let t1 := cs.dropWhile pyIsSpace
  let ds := t1.takeWhile pyIsDigit
  !ds.isEmpty && (t1.drop ds.length).all pyIsSpace

/-- `^\s*-\s*\d+\s*-\s*$`. -/
def isDashedPageNumberText (cs : List Char) : Bool :=
  match cs.dropWhile pyIsSpace with
  | '-' :: r1 =>
    let r2 := r1.dropWhile pyIsSpace
    let ds := r2.takeWhile pyIsDigit
    !ds.isEmpty &&
      (match (r2.drop ds.length).dropWhile pyIsSpace with
       | '-' :: r3 => r3.all pyIsSpace
       | _ => false)
  | _ => false

/-- `^\s*\|\s*\d+\s*\|\s*$`. -/
def isPipedPageNumberText (cs : List Char) : Bool :=
  match cs.dropWhile pyIsSpace with
  | '|' :: r1 =>
    let r2 := r1.dropWhile pyIsSpace
    let ds := r2.takeWhile pyIsDigit
    !ds.isEmpty &&
      (match (r2.drop ds.length).dropWhile pyIsSpace with
       | '|' :: r3 => r3.all pyIsSpace
       | _ => false)
  | _ => false

/-- `re.search("co\\.,?\\s*ltd", s)`. -/
def searchCoLtd : List Char → Bool
  | [] => false
  | c :: rest =>
    (("co.".data).isPrefixOf (c :: rest) &&
      (let r1 := (c :: rest).drop 3
       let r2 := match r1 with
         | ',' :: r => r
         | _ => r1
       ("ltd".data).isPrefixOf (r2.dropWhile pyIsSpace))) ||
    searchCoLtd rest

/-- `re.search("https?://", s)`. -/
def searchHttp : List Char → Bool
  | [] => false
  | c :: rest =>
    (("http".data).isPrefixOf (c :: rest) &&
      (let r1 := (c :: rest).drop 4
       let r2 := match r1 with
         | 's' :: r => r
         | _ => r1
       ("://".data).isPrefixOf r2)) ||
    searchHttp rest

/-- `re.search("@.*\\.(com|org|jp|gov)", s)` (one-line texts). -/
def searchAtThenTld : List Char → Bool
  | [] => false
  | c :: rest =>
    (c = '@' && (hasSub ".com".data rest || hasSub ".org".data rest ||
      hasSub ".jp".data rest || hasSub ".gov".data rest)) ||
    searchAtThenTld rest

/-- The disjunction of the `footer_patterns` of
`LayoutExtractor._is_footer_text` (layout_extractor.py lines 1281-1310),
searched in the lowercased stripped text. -/
def anyFooterPattern (tl : List Char) : Bool :=
  searchPatThen4 "copyright".data tl || searchPatThen4 "©".data tl ||
  searchPatThen4 "(c)".data tl ||
  isPageNumberText tl || isDashedPageNumberText tl || isPipedPageNumberText tl ||
  hasSub "all rights reserved".data tl || hasSub "株式会社".data tl ||
  hasSub "有限会社".data tl || searchCoLtd tl || hasSub "corporation".data tl ||
  hasSub "inc.".data tl || searchHttp tl || hasSub "www.".data tl ||
  searchAtThenTld tl || hasSub "confidential".data tl ||
  hasSub "機密".data tl || hasSub "内部資料".data tl || hasSub "社外秘".data tl

/-- `LayoutExtractor._is_footer_text` (layout_extractor.py lines 1265-1328):
a footer pattern (or a bare page number) in the bottom 15% of the page
(`avg_y < 130` in PDF coordinates). -/
def isFooterText (textContent : String) (bboxData : RBBox) : Bool :=
  let cs := textContent.data
  if cs.isEmpty || decide (cs.length > 300) then false
  else
    let tl := pyStrip (cs.map pyToLower)
    let isBottomArea := decide ((bboxData.y1 + bboxData.y2) / 2 < 130)
    (anyFooterPattern tl && isBottomArea) ||
    (isPageNumberText (pyStrip cs) && isBottomArea)

/-- One caption pattern `^kw\s*\d+[\.\s]`. -/
def capKw (kw : List Char) (cs : List Char) : Bool :=
  kw.isPrefixOf cs &&
    (let r1 := (cs.drop kw.length).dropWhile pyIsSpace
     let ds := r1.takeWhile pyIsDigit
     !ds.isEmpty &&
       (match r1.drop ds.length with
        | c :: _ => c = '.' || pyIsSpace c
        | [] => false))

/-- `LayoutExtractor._is_caption_text` (layout_extractor.py lines 1224-1263):
Japanese patterns on the raw text, English patterns on the lowercased
stripped text. -/
def isCaptionText (textContent : String) : Bool :=
  let cs := textContent.data
  if cs.isEmpty || decide (cs.length > 200) then false
  else
    let tl := pyStrip (cs.map pyToLower)
    capKw "図".data cs || capKw "表".data cs || capKw "写真".data cs ||
    capKw "グラフ".data cs || capKw "チャート".data cs ||
    capKw "figure".data tl || capKw "table".data tl || capKw "chart".data tl ||
    capKw "graph".data tl || capKw "image".data tl

/-- The continuation prefixes of `LayoutExtractor._is_continuation_text`
(layout_extractor.py lines 1377-1389). -/
def contPattern (ts : List Char) : Bool :=
  (match ts with
   | c :: _ =>
     (['わ','ら','ず','も','の','こ','と','た','め','に','は','で','が','を',
       'と','も'].contains c) ||
     (['、','。','，','．'].contains c)
   | [] => false) ||
  (("らず".data).isPrefixOf ts &&
    (match ts.drop 2 with
     | c :: _ => c = '、' || c = '，'
     | [] => false)) ||
  (("ること".data).isPrefixOf ts &&
    (match ts.drop 3 with
     | c :: _ => c = '。' || c = '、'
     | [] => false)) ||
  (("もの".data).isPrefixOf ts &&
    (match ts.drop 2 with
     | c :: _ => c = '。' || c = '、'
     | [] => false))

/-- `LayoutExtractor._is_continuation_text` (layout_extractor.py lines
1360-1403): only in the top area (`avg_y > 700`), a continuation prefix or
a lowercase first character. -/
def isContinuationText (textContent : String) (bboxData : RBBox) : Bool :=
  let cs := textContent.data
  if cs.isEmpty then false
  else
    let isTopArea := decide ((bboxData.y1 + bboxData.y2) / 2 > 700)
    if !isTopArea then false
    else
      let ts := pyStrip cs
      contPattern ts ||
      (match ts with
       | c :: _ => pyIsLowerChar c
       | [] => false)

/-- `^kw\s+#\d+` under IGNORECASE (the debug-label exclusions of
`_is_section_header_text`, layout_extractor.py lines 1413-1416). -/
def debugLabel (kw : List Char) (ts : List Char) : Bool :=
  kw.isPrefixOf (ts.map pyToLower) &&
    (match ts.drop kw.length with
     | c :: _ =>
       pyIsSpace c &&
         (match (ts.drop kw.length).dropWhile pyIsSpace with
          | '#' :: r =>
            (match r with
             | d :: _ => pyIsDigit d
             | [] => false)
          | _ => false)
     | [] => false)

/-- `^第\s*[0-9０-９]+\s*x` for a closing kanji `x` (条/章/節/項). -/
def daiPattern (closing : Char) (ts : List Char) : Bool :=
  match ts with
  | '第' :: r1 =>
    let r2 := r1.dropWhile pyIsSpace
    let ds := r2.takeWhile pyIsDigit
    !ds.isEmpty &&
      (match (r2.drop ds.length).dropWhile pyIsSpace with
       | c :: _ => c = closing
       | [] => false)
  | _ => false

/-- `^[【\[]\s*.+\s*[】\]]`: an opening bracket and, later, a closing
bracket with at least one (non-newline) character in between. -/
def bracketHeading (ts : List Char) : Bool :=
  match ts with
  | c :: rest =>
    (c = '【' || c = '[') &&
      (let body := rest.dropWhile pyIsSpace
       bracketHeadingAux body)
  | [] => false
where
  bracketHeadingAux : List Char → Bool
  | [] => false
  | c :: rest =>
    if c = '】' || c = ']' then false
    else if c = '\n' then false
    else hasCloser rest
  hasCloser : List Char → Bool
  | [] => false
  | c :: rest =>
    if c = '】' || c = ']' then true
    else if c = '\n' then false
    else hasCloser rest

/-- `^kw\s+\d+` under IGNORECASE (chapter/section/article patterns). -/
def engSection (kw : List Char) (ts : List Char) : Bool :=
  kw.isPrefixOf (ts.map pyToLower) &&
    (match ts.drop kw.length with
     | c :: _ =>
       pyIsSpace c &&
         (match (ts.drop kw.length).dropWhile pyIsSpace with
          | d :: _ => pyIsDigit d
          | [] => false)
     | [] => false)

/-- `^\d+\.\d+\s+`. -/
def numDotNum (ts : List Char) : Bool :=
  let ds := ts.takeWhile pyIsDigit
  !ds.isEmpty &&
    (match ts.drop ds.length with
     | '.' :: r1 =>
       let ds2 := r1.takeWhile pyIsDigit
       !ds2.isEmpty &&
         (match r1.drop ds2.length with
          | c :: _ => pyIsSpace c
          | [] => false)
     | _ => false)

/-- `^[（(][^)）]{1,30}[)）]$`. -/
def parenShortHeading (ts : List Char) : Bool :=
  match ts with
  | c :: rest => (c = '（' || c = '(') && parenShortAux rest 0
  | [] => false
where
  parenShortAux : List Char → Nat → Bool
  | [], _ => false
  | c :: rest, n =>
    if c = ')' || c = '）' then decide (1 ≤ n) && rest.isEmpty
    else if 30 ≤ n then false
    else parenShortAux rest (n + 1)

/-- `LayoutExtractor._is_section_header_text` (layout_extractor.py lines
1405-1455): exclusion labels, the section patterns, or a short all-caps
text. -/
def isSectionHeaderText (textContent : String) : Bool :=
  let cs := textContent.data
  if cs.isEmpty || decide (cs.length > 150) then false
  else
    let ts := pyStrip cs
    if debugLabel "text".data ts || debugLabel "section_header".data ts then false
    else
      daiPattern '条' ts || daiPattern '章' ts || daiPattern '節' ts ||
      daiPattern '項' ts || bracketHeading ts ||
      engSection "chapter".data ts || engSection "section".data ts ||
      engSection "article".data ts || numDotNum ts || parenShortHeading ts ||
      (decide (ts.length < 50) && pyIsUpperStr ts)

/-- `LayoutExtractor._is_header_text` (layout_extractor.py lines 1330-1358):
in the top area (`avg_y > 712`), not a continuation-looking start and not a
section header. -/
def isHeaderText (textContent : String) (bboxData : RBBox) : Bool :=
  let cs := textContent.data
  if cs.isEmpty || decide (cs.length > 200) then false
  else
    let isTopArea := decide ((bboxData.y1 + bboxData.y2) / 2 > 712)
    let ts := pyStrip cs
    let excluded :=
      match ts with
      | c :: _ =>
        if !pyIsUpperChar c && !(['第','（','('].contains c) then
          (['わ','ら','ず','も','の','こ','と','た','め'].contains c) ||
            ("らず".data).isPrefixOf ts
        else false
      | [] => false
    if excluded then false
    else isTopArea && !isSectionHeaderText textContent

/-- The bullet class `[・·•▪▫◆◇■□★☆○●◎◉]`. -/
def bulletChars : List Char :=
  ['・', '·', '•', '▪', '▫', '◆', '◇', '■', '□', '★', '☆', '○', '●', '◎', '◉']

/-- The hyphen/dash class `[-－‐―ー]`. -/
def hyphenChars : List Char := ['-', '－', '‐', '―', 'ー']

/-- The class `[\.．)）]`. -/
def dotParenFull : List Char := ['.', '．', ')', '）']

/-- The class `[\.)\]]`. -/
def dotParenBracket : List Char := ['.', ')', ']']

/-- The arrow class `[→⇒▶▷]`. -/
def arrowChars : List Char := ['→', '⇒', '▶', '▷']

/-- The note-mark class `[※＊]`. -/
def noteChars : List Char := ['※', '＊']

/-- The circled-digit class `[①-⑳]` (U+2460-U+2473). -/
def circledDigit (c : Char) : Bool :=
  0x2460 ≤ c.toNat && c.toNat ≤ 0x2473

/-- The lowercase Roman-numeral class `[ⅰⅱⅲⅳⅴⅵⅶⅷⅸⅹ]` (U+2170-U+2179). -/
def romanNumLower (c : Char) : Bool :=
  0x2170 ≤ c.toNat && c.toNat ≤ 0x2179

/-- The uppercase Roman-numeral class `[ⅠⅡⅢⅣⅤⅥⅦⅧⅨⅩ]` (U+2160-U+2169). -/
def romanNumUpper (c : Char) : Bool :=
  0x2160 ≤ c.toNat && c.toNat ≤ 0x2169

/-- The fullwidth lowercase class `[ａ-ｚ]` (U+FF41-U+FF5A). -/
def fullwidthLower (c : Char) : Bool :=
  0xFF41 ≤ c.toNat && c.toNat ≤ 0xFF5A

/-- The fullwidth uppercase class `[Ａ-Ｚ]` (U+FF21-U+FF3A). -/
def fullwidthUpper (c : Char) : Bool :=
  0xFF21 ≤ c.toNat && c.toNat ≤ 0xFF3A

/-- The Roman-letter classes `[ivxlcdm]` / `[IVXLCDM]`. -/
def romanLetterLower : List Char := ['i', 'v', 'x', 'l', 'c', 'd', 'm']

def romanLetterUpper : List Char := ['I', 'V', 'X', 'L', 'C', 'D', 'M']

/-- `^[class]\s+`: a marker character followed by at least one whitespace
character (the bullet/hyphen/circled/arrow/note list patterns). -/
def markerThenSpace (mk : Char → Bool) (cs : List Char) : Bool :=
  match cs with
  | c :: r =>
    mk c &&
      (match r with
       | d :: _ => pyIsSpace d
       | [] => false)
  | [] => false

/-- `^[(（]\s*[0-9０-９]+\s*[)）]`. -/
def parenNumPattern (cs : List Char) : Bool :=
  match cs with
  | c :: r1 =>
    (c = '(' || c = '（') &&
      (let r2 := r1.dropWhile pyIsSpace
       let ds := r2.takeWhile pyIsDigit
       !ds.isEmpty &&
         (match (r2.drop ds.length).dropWhile pyIsSpace with
          | d :: _ => d = ')' || d = '）'
          | [] => false))
  | [] => false

/-- `^[class]\s*[closer]\s*`: one marker, optional whitespace, a closing
dot/paren (the Roman-numeral and fullwidth-letter list patterns, whose
trailing `\s*` is vacuous). -/
def markerDotParen (mk : Char → Bool) (closers : List Char) (cs : List Char) : Bool :=
  match cs with
  | c :: r1 =>
    mk c &&
      (match r1.dropWhile pyIsSpace with
       | d :: _ => closers.contains d
       | [] => false)
  | [] => false

/-- `^[class]\s*[closer]\s+`: one marker, optional whitespace, a closing
dot/paren/bracket, then at least one whitespace character (the ASCII
lettered list patterns). -/
def markerDotParenSpace (mk : Char → Bool) (closers : List Char) (cs : List Char) : Bool :=
  match cs with
  | c :: r1 =>
    mk c &&
      (match r1.dropWhile pyIsSpace with
       | d :: r2 =>
         closers.contains d &&
           (match r2 with
            | e :: _ => pyIsSpace e
            | [] => false)
       | [] => false)
  | [] => false

/-- `^[class]+\s*[\.)\]]\s+` for the Roman-letter runs: the letter class,
the whitespace class and the closer class are pairwise disjoint, so the
greedy maximal run is the only candidate. -/
def romanRunPattern (letters : List Char) (cs : List Char) : Bool :=
  let run := cs.takeWhile (fun c => letters.contains c)
  !run.isEmpty &&
    (match (cs.drop run.length).dropWhile pyIsSpace with
     | d :: r2 =>
       dotParenBracket.contains d &&
         (match r2 with
          | e :: _ => pyIsSpace e
          | [] => false)
     | [] => false)

/-- `^\s+[class]\s+` (the indented bullet/hyphen patterns). -/
def indentedMarkerPattern (cls : List Char) (cs : List Char) : Bool :=
  match cs with
  | c :: r1 =>
    pyIsSpace c &&
      (match r1.dropWhile pyIsSpace with
       | d :: r2 =>
         cls.contains d &&
           (match r2 with
            | e :: _ => pyIsSpace e
            | [] => false)
       | [] => false)
  | [] => false

/-- `re.search(base ++ "[。、]?$", text_strip)`: the stripped text ends with
`base`, optionally followed by one `。` or `、`. -/
def endingBase (base : List Char) (ts : List Char) : Bool :=
  base.isSuffixOf ts || (base ++ ['。']).isSuffixOf ts ||
    (base ++ ['、']).isSuffixOf ts

/-- `re.search(stem ++ "\\s*" ++ base ++ "[。、]?$", text_strip)`: `base`
at the end (with the optional punctuation), preceded backwards over
whitespace by `stem`. -/
def endingStemSpace (stem : Char) (base : List Char) (ts : List Char) : Bool :=
  let rs :=
    match ts.reverse with
    | c :: r => if c = '。' || c = '、' then r else ts.reverse
    | [] => ts.reverse
  base.reverse.isPrefixOf rs &&
    (match (rs.drop base.length).dropWhile pyIsSpace with
     | c :: _ => c = stem
     | [] => false)

/-- The ending-pattern disjunction of `_is_list_item_text`
(layout_extractor.py lines 1502-1511), searched in the stripped text. -/
def anyEndingPattern (ts : List Char) : Bool :=
  endingBase "こと".data ts || endingBase "もの".data ts ||
  endingBase "ため".data ts || endingBase "必要がある".data ts ||
  endingBase "ものとする".data ts || endingBase "場合".data ts ||
  endingStemSpace 'す' "ること".data ts || endingStemSpace 'る' "こと".data ts

/-- `LayoutExtractor._is_list_item_text` (layout_extractor.py lines
1457-1523): the sixteen marker patterns are matched against the raw text;
the clause-ending patterns fire only when the stripped text is shorter than
200 characters and the raw text begins with a space or an ideographic
space. -/
def isListItemText (textContent : String) : Bool :=
  let cs := textContent.data
  if cs.isEmpty then false
  else
    let ts := pyStrip cs
    markerThenSpace (fun c => bulletChars.contains c) cs ||
    markerThenSpace (fun c => hyphenChars.contains c) cs ||
    parenNumPattern cs ||
    markerThenSpace circledDigit cs ||
    markerDotParen romanNumLower dotParenFull cs ||
    markerDotParen romanNumUpper dotParenFull cs ||
    markerDotParen fullwidthLower dotParenFull cs ||
    markerDotParen fullwidthUpper dotParenFull cs ||
    markerDotParenSpace (fun c => 'a' ≤ c && c ≤ 'z') dotParenBracket cs ||
    markerDotParenSpace (fun c => 'A' ≤ c && c ≤ 'Z') dotParenBracket cs ||
    romanRunPattern romanLetterLower cs ||
    romanRunPattern romanLetterUpper cs ||
    markerThenSpace (fun c => arrowChars.contains c) cs ||
    markerThenSpace (fun c => noteChars.contains c) cs ||
    indentedMarkerPattern bulletChars cs ||
    indentedMarkerPattern hyphenChars cs ||
    (decide (ts.length < 200) && anyEndingPattern ts &&
      (match cs with
       | c :: _ => c = ' ' || c = '　'
       | [] => false))

/-- The `obj_type` dispatch of `_process_main_text_item`
(layout_extractor.py lines 1157-1170). -/
def elementTypeFromObj (objType : Option String) : String :=
  match objType with
  | none => "text"
  | some t =>
    if t = "subtitle-level-1" then "title"
    else if t = "page-header" then "page_header"
    else if t = "section-header" then "title"
    else if t = "paragraph" then "text"
    else "text"

/-- The classification chain of `_process_main_text_item`
(layout_extractor.py lines 1157-1192): obj_type dispatch, then the
caption, footer, list-item, continuation, header and section-header
overrides in source order. -/
def classifyMainTextType (objType : Option String) (textContent : String)
    (bboxData : RBBox) : String :=
  let et0 := elementTypeFromObj objType
  let et1 := if isCaptionText textContent then "caption" else et0
  let et2 := if isFooterText textContent bboxData then "page_footer" else et1
  if (et2 = "text" || et2 = "title") && isListItemText textContent then
    "list_item"
  else if et2 = "text" && isContinuationText textContent bboxData then "text"
  else if et2 = "text" && isHeaderText textContent bboxData then "page_header"
  else if et2 = "text" && isSectionHeaderText textContent then "title"
  else et2

/-- A body-area bbox (average y = 500 in PDF coordinates: neither the
bottom footer band nor the top header band). -/
def c8Bbox : RBBox := ⟨50, 495, 200, 505⟩

/-- When neither a footer text pattern nor a bare page number matches, the
footer test is false for every bbox. -/
theorem isFooterText_of_patterns_false (txt : String) (b : RBBox)
    (ha : anyFooterPattern (pyStrip (txt.data.map pyToLower)) = false)
    (hp : isPageNumberText (pyStrip txt.data) = false) :
    isFooterText txt b = false := by
  unfold isFooterText
  simp only [ha, hp, Bool.false_and, Bool.or_self, ite_self]

/-- Outside the top area the continuation test is false. -/
theorem isContinuationText_of_not_top (txt : String) (b : RBBox)
    (h : decide ((b.y1 + b.y2) / 2 > (700 : ℚ)) = false) :
    isContinuationText txt b = false := by
  unfold isContinuationText
  simp only [h, Bool.not_false, if_true, ite_self]

/-- Outside the top area the header test is false. -/
theorem isHeaderText_of_not_top (txt : String) (b : RBBox)
    (h : decide ((b.y1 + b.y2) / 2 > (712 : ℚ)) = false) :
    isHeaderText txt b = false := by
  unfold isHeaderText
  simp only [h, Bool.false_and, ite_self]

/-- C8 counterexample: `_is_list_item_text` does not match `"・項目A"` — the
bullet pattern `^[・…]\s+` demands whitespace after the marker and the
ending patterns do not apply — so with an upstream hint of "paragraph" (the
"text" element type) the classification chain falls through to the
section-header test, whose short-all-caps branch fires (`'A'` is the only
cased character), yielding "title"; with a hint of "section-header"
("title") the hint is simply kept. In neither case is "list_item"
assigned. -/
theorem claim_C8_counterexample :
    isListItemText "・項目A" = false ∧
    classifyMainTextType (some "paragraph") "・項目A" c8Bbox = "title" ∧
    classifyMainTextType (some "section-header") "・項目A" c8Bbox = "title" := by
  have hlist : isListItemText "・項目A" = false := by decide
  have hcap : isCaptionText "・項目A" = false := by decide
  have hsec : isSectionHeaderText "・項目A" = true := by decide
  have hfoot : isFooterText "・項目A" c8Bbox = false :=
    isFooterText_of_patterns_false _ _ (by decide) (by decide)
  have hcont : isContinuationText "・項目A" c8Bbox = false :=
    isContinuationText_of_not_top _ _ (by norm_num [c8Bbox])
  have hhead : isHeaderText "・項目A" c8Bbox = false :=
    isHeaderText_of_not_top _ _ (by norm_num [c8Bbox])
  refine ⟨hlist, ?_, ?_⟩ <;>
  simp [classifyMainTextType, elementTypeFromObj, hcap, hfoot, hlist, hcont,
    hhead, hsec]

/-- C8: the bullet list pattern requires whitespace after the marker, so it
is `"・ 項目A"` (with the space) that `_is_list_item_text` matches; that
text is classified "list_item" for every bbox and regardless of an upstream
hint of "paragraph"/none ("text") or "section-header"/"subtitle-level-1"
("title") — the list-marker rule overrides the text and title hints. -/
theorem claim_C8_list_marker_overrides_hints :
    isListItemText "・ 項目A" = true ∧
    ∀ b : RBBox,
      classifyMainTextType none "・ 項目A" b = "list_item" ∧
      classifyMainTextType (some "paragraph") "・ 項目A" b = "list_item" ∧
      classifyMainTextType (some "section-header") "・ 項目A" b = "list_item" ∧
      classifyMainTextType (some "subtitle-level-1") "・ 項目A" b = "list_item" := by
  have hlist : isListItemText "・ 項目A" = true := by decide
  have hcap : isCaptionText "・ 項目A" = false := by decide
  refine ⟨hlist, fun b => ?_⟩
  have hfoot : isFooterText "・ 項目A" b = false :=
    isFooterText_of_patterns_false _ _ (by decide) (by decide)
  refine ⟨?_, ?_, ?_, ?_⟩ <;>
  simp [classifyMainTextType, elementTypeFromObj, hcap, hfoot, hlist]

end Spec2Proof
